import Mathlib

set_option maxRecDepth 16000

/-!
Verification development for the transfer/removal execution core of an
object-storage command-line client (package `cmd`: `common-methods.go`,
the `rm` pipeline, and the `Client` abstraction).

Go strings handled by the encryption-key parser are modelled as byte lists
(`List Nat`, each element < 256), since `parseKey` measures byte lengths and
splices raw decoded bytes into its result.  Paths and header maps elsewhere
are ASCII and are modelled as Lean `String`s.
-/

namespace OssCli

/-! ## Byte strings and Go's standard base64 decoding -/

/-- Bytes of an ASCII string (used to build concrete inputs). -/
def strBytes (s : String) : List Nat := s.data.map Char.toNat

/-- Value of one byte in the standard base64 alphabet (`A-Z a-z 0-9 + /`). -/
def b64Val (b : Nat) : Option Nat :=
  if 65 ≤ b ∧ b ≤ 90 then some (b - 65)
  else if 97 ≤ b ∧ b ≤ 122 then some (b - 97 + 26)
  else if 48 ≤ b ∧ b ≤ 57 then some (b - 48 + 52)
  else if b = 43 then some 62
  else if b = 47 then some 63
  else none

/-- Decode base64 input four characters at a time, exactly as
`encoding/base64.StdEncoding` does after newline removal: every quantum is
four characters; the final quantum may end in `=` (three bytes become two)
or `==` (three bytes become one), and padding may only occur at the end.
Byte values are assembled as `b0 = v0<<2 | v1>>4`, `b1 = (v1&15)<<4 | v2>>2`,
`b2 = (v2&3)<<6 | v3`. -/
def decodeQuanta : List Nat → Option (List Nat)
  | [] => some []
  | c0 :: c1 :: c2 :: c3 :: rest =>
    match b64Val c0, b64Val c1 with
    | some v0, some v1 =>
      match b64Val c2, b64Val c3 with
      | some v2, some v3 =>
        (decodeQuanta rest).map
          (fun bs => (v0 * 4 + v1 / 16) :: ((v1 % 16) * 16 + v2 / 4) ::
            ((v2 % 4) * 64 + v3) :: bs)
      | some v2, none =>
        if c3 = 61 ∧ rest = [] then
          some [v0 * 4 + v1 / 16, (v1 % 16) * 16 + v2 / 4]
        else none
      | none, _ =>
        if c2 = 61 ∧ c3 = 61 ∧ rest = [] then some [v0 * 4 + v1 / 16]
        else none
    | _, _ => none
  | _ => none

/-- Go `base64.StdEncoding.DecodeString`: carriage returns and newlines are
ignored anywhere in the input, then the input is decoded in 4-character
quanta with mandatory trailing padding. -/
def goB64Decode (s : List Nat) : Option (List Nat) :=
  decodeQuanta (s.filter (fun b => !(b == 13) && !(b == 10)))

/-! ## `parseKey` and `getDecodedKey` (`cmd/common-methods.go`) -/

/-- Go `strings.SplitN(s, "=", 2)`: `none` when the separator is absent
(`len(encryptString) < 2` in the Go code), otherwise the part before the
first `=` (byte 61) and everything after it. -/
def splitFirstEq : List Nat → Option (List Nat × List Nat)
  | [] => none
  | b :: rest =>
    if b = 61 then some ([], rest)
    else (splitFirstEq rest).map (fun pr => (b :: pr.1, pr.2))

/-- Function `parseKey` from `cmd/common-methods.go`: an entry must contain `=`;
a 32-byte secret is returned unchanged; otherwise the secret must
base64-decode to exactly 32 bytes, which replace it in the result. -/
def parseKey (sseKeys : List Nat) : Except Unit (List Nat) :=
  match splitFirstEq sseKeys with
  | none => .error ()
  | some (pfx, secret) =>
    if secret.length = 32 then .ok sseKeys
    else
      match goB64Decode secret with
      | some ds => if ds.length = 32 then .ok (pfx ++ 61 :: ds) else .error ()
      | none => .error ()

/-- Go `strings.Split(s, ",")` over bytes (comma is byte 44). -/
def splitComma : List Nat → List (List Nat)
  | [] => [[]]
  | b :: rest =>
    if b = 44 then [] :: splitComma rest
    else
      match splitComma rest with
      | seg :: segs => (b :: seg) :: segs
      | [] => [[b]]

/-- Join segments with commas (the string `getDecodedKey` accumulates). -/
def joinComma : List (List Nat) → List Nat
  | [] => []
  | [seg] => seg
  | seg :: rest => seg ++ 44 :: joinComma rest

/-- The per-segment loop of `getDecodedKey`: parse every entry, failing on
the first invalid one. -/
def gdkGo : List (List Nat) → Except Unit (List (List Nat))
  | [] => .ok []
  | e :: es =>
    match parseKey e with
    | .error u => .error u
    | .ok r => (gdkGo es).map (fun rs => r :: rs)

/-- Function `getDecodedKey` from `cmd/common-methods.go`: split on commas, validate
each entry with `parseKey`, and rejoin the (possibly decoded) entries. -/
def getDecodedKey (sseKeys : List Nat) : Except Unit (List Nat) :=
  (gdkGo (splitComma sseKeys)).map joinComma

/-! ## HTTP header grammar and metadata maps

Go maps `map[string]string` are modelled as association lists whose
observable behaviour is `lookupMeta`; map assignment is `insertMeta`
(which replaces any existing binding of the key). -/

/-- The `net/textproto` token table: the bytes allowed in a header field
name (alphanumerics and `! # $ % & ' * + - . ^ _ \x60 | ~`). -/
def isTokenChar (c : Char) : Bool :=
  c.isAlphanum ||
  c.toNat = 33 || c.toNat = 35 || c.toNat = 36 || c.toNat = 37 ||
  c.toNat = 38 || c.toNat = 39 || c.toNat = 42 || c.toNat = 43 ||
  c.toNat = 45 || c.toNat = 46 || c.toNat = 94 || c.toNat = 95 ||
  c.toNat = 96 || c.toNat = 124 || c.toNat = 126

/-- Core loop of `textproto.CanonicalMIMEHeaderKey`: uppercase the first
letter and every letter following a `-`, lowercase the rest. -/
def canonList : Bool → List Char → List Char
  | _, [] => []
  | up, c :: rest =>
    (if up then c.toUpper else c.toLower) :: canonList (c = '-') rest

/-- Go `http.CanonicalHeaderKey`: returns the input unchanged when it holds a
non-token byte, otherwise the canonical Title-Case form. -/
def canonicalHeaderKey (s : String) : String :=
  if s.data.all isTokenChar then ⟨canonList true s.data⟩ else s

/-- Go `httpguts.ValidHeaderFieldName`: nonempty and all token bytes. -/
def validHeaderFieldName (s : String) : Bool :=
  !(s == "") && s.data.all isTokenChar

/-- Go `httpguts.ValidHeaderFieldValue`: no control byte other than tab. -/
def validHeaderFieldValue (s : String) : Bool :=
  s.data.all (fun c => decide (c.toNat = 9 ∨ (32 ≤ c.toNat ∧ c.toNat ≠ 127)))

/-- A Go `map[string]string`, as an association list. -/
abbrev Meta := List (String × String)

/-- Reading `m[k]` (with `none` for Go's missing-key zero value). -/
def lookupMeta : Meta → String → Option String
  | [], _ => none
  | (k', v) :: rest, k => if k' = k then some v else lookupMeta rest k

/-- Map assignment `m[k] = v`: replaces any existing binding of `k`. -/
def insertMeta (m : Meta) (k v : String) : Meta :=
  m.filter (fun p => !(p.1 == k)) ++ [(k, v)]

/-- Left-biased choice on lookup results (used to state precedence). -/
def orO (a b : Option String) : Option String :=
  match a with
  | some v => some v
  | none => b

/-- A Go loop `for k, v := range src { dst[canonical(k)] = v }`. -/
def mergeCanon (dst src : Meta) : Meta :=
  src.foldl (fun d p => insertMeta d (canonicalHeaderKey p.1) p.2) dst

/-- Modelled from the spec: the constant `serverEncryptionKeyPrefix` is not
under `src/`; the spec says encryption-key-bearing pseudo-headers are always
stripped before transmission, and the S3 header family for SSE keys is
`x-amz-server-side-encryption*`. -/
def sseKeyHeader : String := "x-amz-server-side-encryption"

/-- Function `filterMetadata` from `cmd/common-methods.go`: keep only header-valid
pairs, then drop every key whose canonical form starts with the canonical
server-side-encryption key marker. -/
def filterMetadata (metadata : Meta) : Meta :=
  (metadata.filter
      (fun p => validHeaderFieldName p.1 && validHeaderFieldValue p.2)).filter
    (fun p =>
      !((canonicalHeaderKey p.1).startsWith (canonicalHeaderKey sseKeyHeader)))

/-- Modelled from the spec: the retention/legal-hold pseudo-metadata keys
(`AmzObjectLockMode`, `AmzObjectLockRetainUntilDate`, `AmzObjectLockLegalHold`)
are declared outside `src/`; the spec names them lock-mode,
retain-until-date and legal-hold status. -/
def lockModeKey : String := "X-Amz-Object-Lock-Mode"

/-- Modelled from the spec: see `lockModeKey`. -/
def lockRetainKey : String := "X-Amz-Object-Lock-Retain-Until-Date"

/-- Modelled from the spec: see `lockModeKey`. -/
def lockHoldKey : String := "X-Amz-Object-Lock-Legal-Hold"

/-! ## `isAliasURLDir` (`cmd/common-methods.go`)

The two backend probes the function makes — `url2Stat` and
`mustExpandAlias` — are supplied as an environment.  `filepath.Separator`
and `filepath.ToSlash` are modelled for a Unix host, where `ToSlash` is the
identity and the separator is `/`. -/

/-- Environment of `isAliasURLDir`: `statRes` is `some isDir` when
`url2Stat` succeeds, `none` when it errors; `expanded` is the URL returned
by `mustExpandAlias` (equal to the input exactly when the URL is
filesystem-backed). -/
structure DirEnv where
  statRes : Option Bool
  expanded : String

/-- Go `strings.Split` on a single separator character (over the characters of
the string; `/` is ASCII so this agrees with Go's byte-level split).
Splitting the empty string yields `[[]]`, as in Go. -/
def splitOnChar (sep : Char) : List Char → List (List Char)
  | [] => [[]]
  | c :: rest =>
    if c = sep then [] :: splitOnChar sep rest
    else
      match splitOnChar sep rest with
      | seg :: segs => (c :: seg) :: segs
      | [] => [[c]]

/-- Function `isAliasURLDir` from `cmd/common-methods.go`. -/
def isAliasURLDir (env : DirEnv) (aliasURL : String) : Bool :=
  match env.statRes with
  | some isDir => isDir
  | none =>
    if env.expanded = aliasURL then
      aliasURL.endsWith "/"
    else
      match (splitOnChar '/' aliasURL.data).length with
      | 0 => false
      | 1 => false
      | 2 => true
      | _ + 3 => aliasURL.endsWith "/"

/-! ## The copy/put pipeline (`uploadSourceToTargetURL`)

Backend calls are observable events collected in a trace; their results are
supplied by an environment record.  A single `clientOk` flag stands for the
success of every `newClientFromAlias` call (creation failures are uniform:
the callee returns the error without touching the backend). -/

/-- Backend failures surfaced through `*probe.Error` values. -/
inductive GoErr where
  | invalidArg
  | backend
deriving DecidableEq, Repr

/-- One backend call made (directly or through helpers) by
`uploadSourceToTargetURL`.  `retentionCall` records the lock mode and
retain-until-date extracted from the metadata handed to
`putTargetRetention`; `copyCall`/`putCall` record the metadata map handed to
`Client.Copy`/`Client.Put`, and `putCall` records whether the reader was
wrapped in `io.LimitReader` (the non-`ReaderAt` branch). -/
inductive CallOp where
  | statCall
  | getCall
  | retentionCall (mode untilDate : Option String)
  | copyCall (md : Meta)
  | putCall (md : Meta) (bounded : Bool)
deriving DecidableEq, Repr

/-- Results of the backend calls `uploadSourceToTargetURL` can make. -/
structure UpEnv where
  clientOk : Bool
  /-- `parseRetentionValidity` + `getRetainUntilDate` on the target's
  retention override, producing the `until` date string on success. -/
  retValid : Except GoErr String
  /-- `st.Metadata` from the `Stat` inside `getAllMetadata`. -/
  allMetaStat : Except GoErr Meta
  /-- failure of `Client.Get` inside `getSourceStream`, if any. -/
  srcGetErr : Option GoErr
  /-- whether the reader returned by `Get` is a `*minio.Object`. -/
  srcIsMinioObj : Bool
  /-- `st.Metadata` from the stat inside `getSourceStream`. -/
  srcStat : Except GoErr Meta
  /-- result of `probeContentType` on the source reader. -/
  probeRes : Except GoErr String
  /-- whether `isReadAt` holds of the source reader. -/
  srcIsReadAt : Bool
  retnErr : Option GoErr
  copyErr : Option GoErr
  putErr : Option GoErr
deriving Repr

/-- The fields of the `URLs` transfer request consumed by
`uploadSourceToTargetURL`. -/
structure URLs where
  sourceAlias : String
  targetAlias : String
  srcSize : Int
  srcMeta : Meta
  srcUserMeta : Meta
  srcRetentionEnabled : Bool
  tgtMeta : Meta
  tgtUserMeta : Meta
  tgtRetentionEnabled : Bool
  tgtRetentionMode : String
  tgtLegalHoldEnabled : Bool
  tgtLegalHold : String
deriving Repr

/-- Function `getAllMetadata` from `cmd/common-methods.go`: stat the source,
canonicalize its stored metadata, layer the target's user metadata on top,
and filter. -/
def getAllMetadataM (env : UpEnv) (u : URLs) : List CallOp × Except GoErr Meta :=
  if !env.clientOk then ([], .error .backend)
  else
    match env.allMetaStat with
    | .error e => ([.statCall], .error e)
    | .ok stMeta =>
      ([.statCall],
       .ok (filterMetadata (mergeCanon (mergeCanon [] stMeta) u.tgtUserMeta)))

/-- Function `getSourceStream` (with `fetchStat = true`) from
`cmd/common-methods.go`: open the reader, stat it, keep the header-valid
stored metadata verbatim (no canonicalization), and probe the content type
when the stored type is the generic fallback and the reader is not already
a networked object. -/
def getSourceStreamM (env : UpEnv) : List CallOp × Except GoErr Meta :=
  if !env.clientOk then ([], .error .backend)
  else
    match env.srcGetErr with
    | some e => ([.getCall], .error e)
    | none =>
      match env.srcStat with
      | .error e => ([.getCall, .statCall], .error e)
      | .ok st =>
        let md := st.filter
          (fun p => validHeaderFieldName p.1 && validHeaderFieldValue p.2)
        if lookupMeta md "Content-Type" = some "application/octet-stream" ∧
            !env.srcIsMinioObj then
          match env.probeRes with
          | .error e => ([.getCall, .statCall], .error e)
          | .ok ct => ([.getCall, .statCall], .ok (insertMeta md "Content-Type" ct))
        else ([.getCall, .statCall], .ok md)

/-- Function `putTargetRetention`: extract (and drop) the lock-mode and
retain-until-date pseudo-headers from the metadata and issue the
metadata-only `PutObjectRetention` call. -/
def putTargetRetentionM (env : UpEnv) (md : Meta) : List CallOp × Option GoErr :=
  if !env.clientOk then ([], some .backend)
  else ([.retentionCall (lookupMeta md lockModeKey) (lookupMeta md lockRetainKey)],
        env.retnErr)

/-- Function `copySourceToTargetURL`: unconditionally store the three lock
pseudo-headers (possibly as empty strings) into the metadata and issue the
in-backend `Copy`. -/
def copySourceToTargetURLM (env : UpEnv) (mode untilDate legalHold : String)
    (md : Meta) : List CallOp × Option GoErr :=
  if !env.clientOk then ([], some .backend)
  else
    ([.copyCall (insertMeta (insertMeta (insertMeta md lockModeKey mode)
        lockRetainKey untilDate) lockHoldKey legalHold)],
     env.copyErr)

/-- Function `putTargetStream`: store the lock pseudo-headers only when nonempty,
then issue `Client.Put`. -/
def putTargetStreamM (env : UpEnv) (mode untilDate legalHold : String)
    (md : Meta) (bounded : Bool) : List CallOp × Option GoErr :=
  if !env.clientOk then ([], some .backend)
  else
    let md := if mode ≠ "" then insertMeta md lockModeKey mode else md
    let md := if untilDate ≠ "" then insertMeta md lockRetainKey untilDate else md
    let md := if legalHold ≠ "" then insertMeta md lockHoldKey legalHold else md
    ([.putCall md bounded], env.putErr)

/-- The metadata accumulated from the source's user metadata followed by
the source's stored metadata (lines 447-452 of `common-methods.go`; the
stored map is ranged over second, so its values overwrite the
user-supplied ones). -/
def upSrcMeta0 (u : URLs) : Meta :=
  mergeCanon (mergeCanon [] u.srcUserMeta) u.srcMeta

/-- The `len(metadata) == 0` fallback shared by both branches: stat the
source via `getAllMetadata` only when the merged source metadata is empty. -/
def upBaseMeta (env : UpEnv) (u : URLs) : List CallOp × Except GoErr Meta :=
  if upSrcMeta0 u = [] then getAllMetadataM env u
  else ([], .ok (upSrcMeta0 u))

/-- Layer the target's stored metadata and then the target's user metadata
over `md` (both canonicalized), as both branches do. -/
def upTgtMerged (u : URLs) (md : Meta) : Meta :=
  mergeCanon (mergeCanon md u.tgtMeta) u.tgtUserMeta

/-- Validation prologue of `uploadSourceToTargetURL`: parse the target's
retention override into `(mode, until)` and check a declared legal hold
against the enumeration `ON`/`OFF` (the `minio.LegalHoldStatus` values). -/
def upValidate (env : UpEnv) (u : URLs) : Except GoErr (String × String × String) :=
  match (if u.tgtRetentionEnabled then env.retValid.map
          (fun untilDate => (u.tgtRetentionMode, untilDate))
         else .ok ("", "")) with
  | .error e => .error e
  | .ok (mode, untilDate) =>
    if u.tgtLegalHoldEnabled then
      if u.tgtLegalHold = "ON" ∨ u.tgtLegalHold = "OFF" then
        .ok (mode, untilDate, u.tgtLegalHold)
      else .error .invalidArg
    else .ok (mode, untilDate, "")

/-- Function `uploadSourceToTargetURL` from `cmd/common-methods.go`, returning the
trace of backend calls and the final error (`none` = success).  In the
cross-alias stream branch the merged source metadata is discarded: the
map is reassigned from `getSourceStream`'s result before the target layers
are merged. -/
def uploadSourceToTargetURL (env : UpEnv) (u : URLs) : List CallOp × Option GoErr :=
  match upValidate env u with
  | .error e => ([], some e)
  | .ok (mode, untilDate, legalHold) =>
    if u.sourceAlias = u.targetAlias then
      match upBaseMeta env u with
      | (t1, .error e) => (t1, some e)
      | (t1, .ok md1) =>
        if u.srcRetentionEnabled then
          (t1 ++ (putTargetRetentionM env (upTgtMerged u md1)).1,
           (putTargetRetentionM env (upTgtMerged u md1)).2)
        else
          (t1 ++ (copySourceToTargetURLM env mode untilDate legalHold
              (filterMetadata (upTgtMerged u md1))).1,
           (copySourceToTargetURLM env mode untilDate legalHold
              (filterMetadata (upTgtMerged u md1))).2)
    else
      if u.srcRetentionEnabled then
        match upBaseMeta env u with
        | (t1, .error e) => (t1, some e)
        | (t1, .ok md1) =>
          (t1 ++ (putTargetRetentionM env (upTgtMerged u md1)).1,
           (putTargetRetentionM env (upTgtMerged u md1)).2)
      else
        match getSourceStreamM env with
        | (t1, .error e) => (t1, some e)
        | (t1, .ok md1) =>
          (t1 ++ (putTargetStreamM env mode untilDate legalHold
              (filterMetadata (upTgtMerged u md1)) (!env.srcIsReadAt)).1,
           (putTargetStreamM env mode untilDate legalHold
              (filterMetadata (upTgtMerged u md1)) (!env.srcIsReadAt)).2)

/-- The metadata maps handed to `Client.Copy` in a trace. -/
def copyMetas (t : List CallOp) : List Meta :=
  t.filterMap (fun op => match op with | .copyCall m => some m | _ => none)

/-- Number of `Get` calls in a trace. -/
def countGet (t : List CallOp) : Nat :=
  (t.filter (fun op => match op with | .getCall => true | _ => false)).length

/-- Number of `Put` calls in a trace. -/
def countPut (t : List CallOp) : Nat :=
  (t.filter (fun op => match op with | .putCall _ _ => true | _ => false)).length

/-- Number of in-backend `Copy` calls in a trace. -/
def countCopy (t : List CallOp) : Nat :=
  (t.filter (fun op => match op with | .copyCall _ => true | _ => false)).length

/-- Number of `PutObjectRetention` calls in a trace. -/
def countRetention (t : List CallOp) : Nat :=
  (t.filter (fun op => match op with | .retentionCall _ _ => true | _ => false)).length

/-- Well-formedness of a metadata map for precedence statements: every key
is canonical, header-valid, not an object-lock pseudo-header and not
SSE-prefixed, every value is header-valid, and keys are unique (as in a Go
map). -/
def wfMeta (m : Meta) : Bool :=
  (m.map Prod.fst).Nodup &&
  m.all (fun p =>
    validHeaderFieldName p.1 && validHeaderFieldValue p.2 &&
    (canonicalHeaderKey p.1 == p.1) &&
    !((canonicalHeaderKey p.1).startsWith (canonicalHeaderKey sseKeyHeader)) &&
    !(p.1 == lockModeKey) && !(p.1 == lockRetainKey) && !(p.1 == lockHoldKey))

/-! ## The bulk remove pipeline (`removeSingle` / `removeRecursive`)

Timestamps are integers with `0` standing for Go's zero `time.Time`
(`content.Time.IsZero()`); durations are the parsed values of the
`--older-than` / `--newer-than` flags in the same unit.  The backend's
`Remove` consumes the feed channel and produces classified failures on an
error channel; those failures are an oracle input (`errq`, `true` =
`PathInsufficientPermission`).  The nondeterministic `select` in the feed
loop is resolved by a schedule: entry `true` means the error-channel
receive fires before the pending send, `false` (or an exhausted schedule,
or an empty error queue) means the send completes. -/

/-- Modelled from the spec: `isOlder` is declared outside `src/`.  Per the
`rm` flag usage in `src/unnamed/part_001` ("remove objects older than L
days...") and the spec's 90-day scenario, the feed loop skips an object
when `isOlder` holds, so `isOlder ti now d` must mean "the object's age
`now - ti` is still below the cutoff `d`". -/
def isOlder (ti now d : Int) : Bool := now - ti < d

/-- Modelled from the spec: `isNewer` is declared outside `src/`; the feed
loop skips an object when its age exceeds the `--newer-than` cutoff. -/
def isNewer (ti now d : Int) : Bool := now - ti > d

/-- One element received from `Client.List`: either an in-band error entry
(`content.Err != nil`, with its permission classification) or an object
with last-modified time, URL path, and size. -/
inductive LEntry where
  | errEntry (isPerm : Bool)
  | objEntry (time : Int) (path : String) (size : Int)
deriving DecidableEq, Repr

/-- The feed loop's decision to process an entry: skip zero-time (prefix
level) entries, then apply the `--older-than` and `--newer-than` filters. -/
def keepEntry (older newer : Option Int) (now t : Int) : Bool :=
  if t = 0 then false
  else if (match older with | some d => isOlder t now d | none => false) then false
  else if (match newer with | some d => isNewer t now d | none => false) then false
  else true

/-- Inputs of one `removeRecursive` run.  `clientOk` is the success of
`newClientFromAlias`; `sched`/`errq` resolve the channel nondeterminism as
described above. -/
structure RmIn where
  clientOk : Bool
  targetAlias : String
  listing : List LEntry
  olderThan : Option Int
  newerThan : Option Int
  now : Int
  isFake : Bool
  sched : List Bool
  errq : List Bool
deriving Repr

/-- Observable outcome of a `removeRecursive` run: the printed messages
(key and size, in order), the descriptors actually sent to the backend's
`Remove` feed channel, whether the feed channel was closed, whether the
final drain loop ran and which failures it consumed, the failures left
unread on the error channel when the function returned, and the final
status (`true` = nil error). -/
structure RmOut where
  printed : List (String × Int)
  sentDesc : List (Int × String × Int)
  feedClosed : Bool
  drainRan : Bool
  drained : List Bool
  leftover : List Bool
  exitOk : Bool
deriving DecidableEq, Repr

/-- The `for !sent { select { ... } }` loop around one channel send.
Returns (aborted, remaining schedule, remaining error queue): a delivered
permission failure is logged and the send retried; a delivered
non-permission failure aborts; otherwise the send succeeds. -/
def sendLoop : List Bool → List Bool → Bool × List Bool × List Bool
  | true :: sch, e :: eq => if e then sendLoop sch eq else (true, sch, eq)
  | true :: _sch, [] => (false, _sch, [])
  | false :: sch, eq => (false, sch, eq)
  | [], eq => (false, [], eq)

/-- The final `for pErr := range errorCh` drain: permission failures are
logged and skipped; the first non-permission failure returns a non-zero
status immediately, leaving the rest of the queue unread.  Returns
(consumed, leftover, ok). -/
def drainLoop : List Bool → List Bool × List Bool × Bool
  | [] => ([], [], true)
  | true :: eq =>
    let r := drainLoop eq
    (true :: r.1, r.2.1, r.2.2)
  | false :: eq => ([false], eq, false)

/-- The listing loop of `removeRecursive`: iterate over `Client.List`
entries, skip or abort on error entries by classification, filter by age,
print each surviving candidate, and (when not in fake mode) send it to the
feed channel while watching the error channel. -/
def feedLoop (al : String) (older newer : Option Int) (now : Int) (fake : Bool) :
    List LEntry → List Bool → List Bool → RmOut
  | [], _sch, eq =>
    let r := drainLoop eq
    ⟨[], [], true, true, r.1, r.2.1, r.2.2⟩
  | .errEntry p :: rest, sch, eq =>
    if p then feedLoop al older newer now fake rest sch eq
    else ⟨[], [], true, false, [], eq, false⟩
  | .objEntry t pth sz :: rest, sch, eq =>
    if keepEntry older newer now t then
      if fake then
        let o := feedLoop al older newer now fake rest sch eq
        { o with printed := (al ++ pth, sz) :: o.printed }
      else
        match sendLoop sch eq with
        | (true, _, eq') => ⟨[(al ++ pth, sz)], [], true, false, [], eq', false⟩
        | (false, sch', eq') =>
          let o := feedLoop al older newer now fake rest sch' eq'
          { o with printed := (al ++ pth, sz) :: o.printed,
                   sentDesc := (t, pth, sz) :: o.sentDesc }
    else feedLoop al older newer now fake rest sch eq

/-- Function `removeRecursive` from the `rm` command (`src/unnamed/part_001`). -/
def removeRecursive (i : RmIn) : RmOut :=
  if i.clientOk then
    feedLoop i.targetAlias i.olderThan i.newerThan i.now i.isFake
      i.listing i.sched i.errq
  else ⟨[], [], false, false, [], i.errq, false⟩

/-- The listed objects of `l` surviving the zero-time and age filters, in
listing order. -/
def candList (older newer : Option Int) (now : Int) : List LEntry → List (Int × String × Int) :=
  List.filterMap (fun e =>
    match e with
    | .objEntry t p s =>
      if keepEntry older newer now t then some (t, p, s) else none
    | .errEntry _ => none)

/-- The printed keys of the surviving objects. -/
def candKeysList (al : String) (older newer : Option Int) (now : Int)
    (l : List LEntry) : List (String × Int) :=
  (candList older newer now l).map (fun d => (al ++ d.2.1, d.2.2))

/-- The candidate set of a run: the listed objects surviving the zero-time
and age filters, in listing order. -/
def rmCandidates (i : RmIn) : List (Int × String × Int) :=
  candList i.olderThan i.newerThan i.now i.listing

/-- The printed keys of the candidate set. -/
def rmCandKeys (i : RmIn) : List (String × Int) :=
  candKeysList i.targetAlias i.olderThan i.newerThan i.now i.listing

/-- Every in-band error entry of a listing is a permission failure. -/
def listingPermOnly (l : List LEntry) : Bool :=
  l.all (fun e => match e with | .errEntry p => p | .objEntry _ _ _ => true)

/-- Every failure on the error channel is a permission failure. -/
def allPerm (eq : List Bool) : Bool := eq.all id

/-- Inputs of one `removeSingle` run: the `statURL` outcome (each content
as (time, size, isDir)), the flags, the expanded target URL, and the
failures delivered on the `Remove` error channel. -/
structure RsIn where
  url : String
  statRes : Except Unit (List (Int × Int × Bool))
  olderThan : Option Int
  newerThan : Option Int
  now : Int
  isFake : Bool
  isForce : Bool
  clientOk : Bool
  targetURL : String
  errq : List Bool
deriving Repr

/-- Observable outcome of a `removeSingle` run. -/
structure RsOut where
  printed : List (String × Int)
  sentURLs : List String
  exitOk : Bool
deriving DecidableEq, Repr

/-- The error-channel loop of `removeSingle`: skip permission failures, return a
non-zero status on anything else. -/
def rsErrLoop : List Bool → Bool
  | [] => true
  | true :: eq => rsErrLoop eq
  | false :: _ => false

/-- Function `removeSingle` from the `rm` command (`src/unnamed/part_001`): stat the
target (absence is an error unless forced), apply the age filters, print,
and — outside fake mode — send the single descriptor (directory targets get
a trailing separator) to the backend's `Remove`. -/
def removeSingle (i : RsIn) : RsOut :=
  match i.statRes with
  | .error _ => ⟨[], [], false⟩
  | .ok [] => ⟨[], [], i.isForce⟩
  | .ok ((t, sz, dir) :: _) =>
    if (match i.olderThan with | some d => isOlder t i.now d | none => false) then
      ⟨[], [], true⟩
    else if (match i.newerThan with | some d => isNewer t i.now d | none => false) then
      ⟨[], [], true⟩
    else
      if i.isFake then ⟨[(i.url, sz)], [], true⟩
      else if !i.clientOk then ⟨[(i.url, sz)], [], false⟩
      else
        let tu := if !(i.targetURL.endsWith "/") && dir then i.targetURL ++ "/"
                  else i.targetURL
        ⟨[(i.url, sz)], [tu], rsErrLoop i.errq⟩

/-! ## Lemmas about base64 decoding and key parsing -/

/-- Successful quanta decoding forces the input length to be a multiple of
four, and pins the output length to within two bytes of `3 * (len / 4)`. -/
theorem decodeQuanta_len : ∀ (s bs : List Nat), decodeQuanta s = some bs →
    s.length % 4 = 0 ∧ 3 * (s.length / 4) ≤ bs.length + 2 ∧
      bs.length ≤ 3 * (s.length / 4)
  | [], bs, h => by
    simp only [decodeQuanta, Option.some.injEq] at h
    subst h
    simp
  | [c], bs, h => by
    rw [show decodeQuanta [c] = none from rfl] at h
    cases h
  | [c, c'], bs, h => by
    rw [show decodeQuanta [c, c'] = none from rfl] at h
    cases h
  | [c, c', c''], bs, h => by
    rw [show decodeQuanta [c, c', c''] = none from rfl] at h
    cases h
  | c0 :: c1 :: c2 :: c3 :: rest, bs, h => by
    simp only [decodeQuanta] at h
    split at h
    · split at h
      · rcases Option.map_eq_some'.mp h with ⟨bs', hr, hf⟩
        obtain ⟨m1, m2, m3⟩ := decodeQuanta_len rest bs' hr
        subst hf
        simp only [List.length_cons]
        omega
      · by_cases hc : c3 = 61 ∧ rest = []
        · rw [if_pos hc] at h
          obtain ⟨-, hrest⟩ := hc
          subst hrest
          injection h with hbs
          subst hbs
          simp
        · rw [if_neg hc] at h
          cases h
      · by_cases hc : c2 = 61 ∧ c3 = 61 ∧ rest = []
        · rw [if_pos hc] at h
          obtain ⟨-, -, hrest⟩ := hc
          subst hrest
          injection h with hbs
          subst hbs
          simp
        · rw [if_neg hc] at h
          cases h
    · cases h

/-- A key without carriage returns or newlines that base64-decodes to 32
bytes must be exactly 44 characters long. -/
theorem goB64Decode_len44 (secret bs : List Nat)
    (hnl : ∀ b ∈ secret, b ≠ 13 ∧ b ≠ 10)
    (h : goB64Decode secret = some bs) (h32 : bs.length = 32) :
    secret.length = 44 := by
  have hf : secret.filter (fun b => !(b == 13) && !(b == 10)) = secret :=
    List.filter_eq_self.mpr (fun b hb => by
      obtain ⟨h1, h2⟩ := hnl b hb
      simp [h1, h2])
  unfold goB64Decode at h
  rw [hf] at h
  obtain ⟨m1, m2, m3⟩ := decodeQuanta_len secret bs h
  omega

/-- Unfolding of `parseKey` once the split of the entry is known. -/
theorem parseKey_eq (pfx secret s : List Nat)
    (hsp : splitFirstEq s = some (pfx, secret)) :
    parseKey s =
      if secret.length = 32 then .ok s
      else
        match goB64Decode secret with
        | some ds => if ds.length = 32 then .ok (pfx ++ 61 :: ds) else .error ()
        | none => .error () := by
  unfold parseKey
  rw [hsp]

/-- Function `gdkGo` succeeds exactly when every entry parses. -/
theorem gdkGo_ok (es : List (List Nat)) :
    (∃ rs, gdkGo es = .ok rs) ↔ ∀ e ∈ es, ∃ r, parseKey e = .ok r := by
  induction es with
  | nil => simp [gdkGo]
  | cons e es ih =>
    constructor
    · rintro ⟨rs, hrs⟩
      unfold gdkGo at hrs
      cases hp : parseKey e with
      | error u => rw [hp] at hrs; cases hrs
      | ok r =>
        rw [hp] at hrs
        intro e' he'
        rcases List.mem_cons.mp he' with he' | he'
        · exact he' ▸ ⟨r, hp⟩
        · cases hg : gdkGo es with
          | error u => rw [hg] at hrs; cases hrs
          | ok rs' => exact (ih.mp ⟨rs', hg⟩) e' he'
    · intro hall
      obtain ⟨r, hr⟩ := hall e (List.mem_cons_self e es)
      obtain ⟨rs, hrs⟩ := ih.mpr (fun e' he' => hall e' (List.mem_cons_of_mem e he'))
      exact ⟨r :: rs, by unfold gdkGo; rw [hr, hrs]; rfl⟩

/-! ## Claim C8 -/

/-- Claim C8, counterexample: the entry
`p=QUFBQUFBQUFBQUFBQUFBQUFBQUFBQUFBQUFBQUFBQUE=\n` has a key of length 45
(neither a literal 32-byte value nor 44-character base64), yet `parseKey`
accepts it — Go's base64 decoder ignores the trailing newline — returning
the prefix with the 32 decoded bytes, instead of the validation error the
claim requires for "an entry of any other key length". -/
theorem parseKey_newline_counterexample :
    parseKey (strBytes "p=QUFBQUFBQUFBQUFBQUFBQUFBQUFBQUFBQUFBQUFBQUE=" ++ [10]) =
      .ok (strBytes "p=" ++ List.replicate 32 65) ∧
    (splitFirstEq
        (strBytes "p=QUFBQUFBQUFBQUFBQUFBQUFBQUFBQUFBQUFBQUFBQUE=" ++ [10])).map
      (fun pr => pr.2.length) = some 45 ∧
    ¬(45 = 32 ∨ 45 = 44) := by
  refine ⟨rfl, by decide, by decide⟩

/-- Claim C8 (amended): `parseKey`/`getDecodedKey` accept a `prefix=key`
entry iff the key has byte length 32 (returned unchanged) or base64-decodes
— with CR/LF characters ignored — to exactly 32 bytes (which replace the
key in the result); an entry lacking `=` or with any other key is a
validation error.  When the key contains no CR/LF, decoding to 32 bytes
does force the 44-character base64 form of the original claim. -/
theorem parseKey_key_validation (s : List Nat) :
    ((∃ r, parseKey s = .ok r) ↔
      ∃ pfx secret, splitFirstEq s = some (pfx, secret) ∧
        (secret.length = 32 ∨ ∃ bs, goB64Decode secret = some bs ∧ bs.length = 32)) ∧
    (∀ pfx secret, splitFirstEq s = some (pfx, secret) → secret.length = 32 →
      parseKey s = .ok s) ∧
    (∀ pfx secret bs, splitFirstEq s = some (pfx, secret) → secret.length ≠ 32 →
      goB64Decode secret = some bs → bs.length = 32 →
      parseKey s = .ok (pfx ++ 61 :: bs)) ∧
    (splitFirstEq s = none → parseKey s = .error ()) ∧
    (∀ pfx secret bs, splitFirstEq s = some (pfx, secret) →
      (∀ b ∈ secret, b ≠ 13 ∧ b ≠ 10) → goB64Decode secret = some bs →
      bs.length = 32 → secret.length = 44) ∧
    ((∃ r, getDecodedKey s = .ok r) ↔ ∀ e ∈ splitComma s, ∃ r, parseKey e = .ok r) := by
  refine ⟨⟨?_, ?_⟩, ?_, ?_, ?_, ?_, ?_, ?_⟩
  · rintro ⟨r, hr⟩
    cases hsp : splitFirstEq s with
    | none => unfold parseKey at hr; rw [hsp] at hr; cases hr
    | some pr =>
      obtain ⟨pfx, secret⟩ := pr
      rw [parseKey_eq pfx secret s hsp] at hr
      refine ⟨pfx, secret, rfl, ?_⟩
      by_cases h32 : secret.length = 32
      · exact Or.inl h32
      · rw [if_neg h32] at hr
        cases hgd : goB64Decode secret with
        | none => rw [hgd] at hr; simp at hr
        | some ds =>
          by_cases hds : ds.length = 32
          · exact Or.inr ⟨ds, rfl, hds⟩
          · rw [hgd] at hr
            replace hr : (if ds.length = 32 then Except.ok (pfx ++ 61 :: ds)
                else Except.error ()) = Except.ok r := hr
            rw [if_neg hds] at hr
            cases hr
  · rintro ⟨pfx, secret, hsp, hcase⟩
    rw [parseKey_eq pfx secret s hsp]
    by_cases h32 : secret.length = 32
    · rw [if_pos h32]; exact ⟨s, rfl⟩
    · rcases hcase with hc | ⟨bs, hgd, hbs⟩
      · exact absurd hc h32
      · rw [if_neg h32]
        simp only [hgd]
        rw [if_pos hbs]
        exact ⟨_, rfl⟩
  · intro pfx secret hsp h32
    rw [parseKey_eq pfx secret s hsp, if_pos h32]
  · intro pfx secret bs hsp h32 hgd hbs
    rw [parseKey_eq pfx secret s hsp, if_neg h32]
    simp only [hgd]
    rw [if_pos hbs]
  · intro hsp
    unfold parseKey
    rw [hsp]
  · intro pfx secret bs _hsp hnl hgd hbs
    exact goB64Decode_len44 secret bs hnl hgd hbs
  · rintro ⟨r, hr⟩
    unfold getDecodedKey at hr
    cases hg : gdkGo (splitComma s) with
    | error u => rw [hg] at hr; cases hr
    | ok rs => exact (gdkGo_ok _).mp ⟨rs, hg⟩
  · intro hall
    obtain ⟨rs, hrs⟩ := (gdkGo_ok _).mpr hall
    exact ⟨joinComma rs, by unfold getDecodedKey; rw [hrs]; rfl⟩

/-- Claim C8, witness: a literal 32-byte key is accepted unchanged. -/
theorem parseKey_key_validation_witness :
    parseKey (strBytes "k=12345678901234567890123456789012") =
      .ok (strBytes "k=12345678901234567890123456789012") :=
  (parseKey_key_validation (strBytes "k=12345678901234567890123456789012")).2.1
    (strBytes "k") (strBytes "12345678901234567890123456789012")
    (by decide) (by decide)

/-! ## Claim C9 -/

/-- Claim C9: `isAliasURLDir` returns the stat result's directory bit when
the URL exists; otherwise, for a filesystem URL (alias expansion is the
identity), whether the URL ends in the separator; otherwise, for an
alias-expanded URL split on `/`: false for one segment, true for exactly
two, and for three or more the trailing-slash test.  The three spec
scenarios follow. -/
theorem isAliasURLDir_classification :
    (∀ (env : DirEnv) (url : String) (d : Bool), env.statRes = some d →
      isAliasURLDir env url = d) ∧
    (∀ (env : DirEnv) (url : String), env.statRes = none → env.expanded = url →
      isAliasURLDir env url = url.endsWith "/") ∧
    (∀ (env : DirEnv) (url : String), env.statRes = none → env.expanded ≠ url →
      (splitOnChar '/' url.data).length = 1 → isAliasURLDir env url = false) ∧
    (∀ (env : DirEnv) (url : String), env.statRes = none → env.expanded ≠ url →
      (splitOnChar '/' url.data).length = 2 → isAliasURLDir env url = true) ∧
    (∀ (env : DirEnv) (url : String) (m : Nat), env.statRes = none →
      env.expanded ≠ url → (splitOnChar '/' url.data).length = m + 3 →
      isAliasURLDir env url = url.endsWith "/") ∧
    (∀ env : DirEnv, env.statRes = none → env.expanded ≠ "s3/bucket" →
      isAliasURLDir env "s3/bucket" = true) ∧
    (∀ env : DirEnv, env.statRes = none → env.expanded ≠ "s3" →
      isAliasURLDir env "s3" = false) ∧
    (∀ env : DirEnv, env.statRes = some false →
      isAliasURLDir env "s3/bucket/file" = false) := by
  refine ⟨?_, ?_, ?_, ?_, ?_, ?_, ?_, ?_⟩
  · intro env url d hstat
    unfold isAliasURLDir
    rw [hstat]
  · intro env url hstat hexp
    unfold isAliasURLDir
    rw [hstat, if_pos hexp]
  · intro env url hstat hexp hlen
    unfold isAliasURLDir
    rw [hstat, if_neg hexp, hlen]
  · intro env url hstat hexp hlen
    unfold isAliasURLDir
    rw [hstat, if_neg hexp, hlen]
  · intro env url m hstat hexp hlen
    unfold isAliasURLDir
    rw [hstat, if_neg hexp, hlen]
  · intro env hstat hexp
    unfold isAliasURLDir
    rw [hstat, if_neg hexp]
    rfl
  · intro env hstat hexp
    unfold isAliasURLDir
    rw [hstat, if_neg hexp]
    rfl
  · intro env hstat
    unfold isAliasURLDir
    rw [hstat]

/-- Claim C9, witness: a nonexistent two-segment S3 address is treated as
directory-like. -/
theorem isAliasURLDir_classification_witness :
    isAliasURLDir ⟨none, "https://play.min.io/bucket"⟩ "s3/bucket" = true :=
  isAliasURLDir_classification.2.2.2.2.2.1 ⟨none, "https://play.min.io/bucket"⟩
    rfl (by decide)

/-! ## Lemmas about the remove pipeline -/

/-- While the error channel delivers only permission failures, the send
loop always ends in a successful send, and only permission failures remain
queued. -/
theorem sendLoop_perm : ∀ (sch eq : List Bool), allPerm eq = true →
    ∃ sch' eq', sendLoop sch eq = (false, sch', eq') ∧ allPerm eq' = true
  | [], eq, h => ⟨[], eq, rfl, h⟩
  | true :: sch, [], _ => ⟨sch, [], rfl, rfl⟩
  | true :: sch, e :: eq, h => by
    have he : e = true ∧ allPerm eq = true := by
      simpa [allPerm] using h
    obtain ⟨he1, he2⟩ := he
    subst he1
    exact sendLoop_perm sch eq he2
  | false :: sch, eq, h => ⟨sch, eq, rfl, h⟩

/-- Draining a queue of permission failures consumes it entirely and keeps
the nil status. -/
theorem drainLoop_perm : ∀ (eq : List Bool), allPerm eq = true →
    drainLoop eq = (eq, [], true)
  | [], _ => rfl
  | true :: eq, h => by
    have h2 : allPerm eq = true := by simpa [allPerm] using h
    simp [drainLoop, drainLoop_perm eq h2]
  | false :: eq, h => by simp [allPerm] at h

/-- A clean run (permission-only in-band errors, permission-only channel
failures) of the feed loop processes every entry: it prints and sends
exactly the filtered candidates, closes the feed channel, runs the drain to
exhaustion and returns a nil status. -/
theorem feedLoop_clean (al : String) (older newer : Option Int) (now : Int)
    (fake : Bool) :
    ∀ (l : List LEntry) (sch eq : List Bool),
    listingPermOnly l = true → allPerm eq = true →
    (feedLoop al older newer now fake l sch eq).printed =
      candKeysList al older newer now l ∧
    (feedLoop al older newer now fake l sch eq).sentDesc =
      (if fake then [] else candList older newer now l) ∧
    (feedLoop al older newer now fake l sch eq).feedClosed = true ∧
    (feedLoop al older newer now fake l sch eq).drainRan = true ∧
    (feedLoop al older newer now fake l sch eq).leftover = [] ∧
    (feedLoop al older newer now fake l sch eq).exitOk = true
  | [], sch, eq, _, hq => by
    simp [feedLoop, drainLoop_perm eq hq, candKeysList, candList]
  | .errEntry p :: rest, sch, eq, hl, hq => by
    have hp : p = true ∧ listingPermOnly rest = true := by
      simpa [listingPermOnly] using hl
    obtain ⟨hp1, hl2⟩ := hp
    subst hp1
    have ih := feedLoop_clean al older newer now fake rest sch eq hl2 hq
    simpa [feedLoop, candKeysList, candList] using ih
  | .objEntry t pth sz :: rest, sch, eq, hl, hq => by
    have hl2 : listingPermOnly rest = true := by
      simpa [listingPermOnly] using hl
    by_cases hk : keepEntry older newer now t = true
    · cases fake with
      | true =>
        have ih := feedLoop_clean al older newer now true rest sch eq hl2 hq
        simp [feedLoop, hk, candKeysList, candList, ih.1, ih.2.1, ih.2.2.1,
          ih.2.2.2.1, ih.2.2.2.2.1, ih.2.2.2.2.2]
      | false =>
        obtain ⟨sch', eq', hs, hq'⟩ := sendLoop_perm sch eq hq
        have ih := feedLoop_clean al older newer now false rest sch' eq' hl2 hq'
        simp [feedLoop, hk, hs, candKeysList, candList, ih.1, ih.2.1, ih.2.2.1,
          ih.2.2.2.1, ih.2.2.2.2.1, ih.2.2.2.2.2]
    · rw [Bool.not_eq_true] at hk
      have ih := feedLoop_clean al older newer now fake rest sch eq hl2 hq
      simpa [feedLoop, hk, candKeysList, candList] using ih

/-- Every path through the feed loop closes the feed channel. -/
theorem feedLoop_closed (al : String) (older newer : Option Int) (now : Int)
    (fake : Bool) :
    ∀ (l : List LEntry) (sch eq : List Bool),
    (feedLoop al older newer now fake l sch eq).feedClosed = true
  | [], _, _ => by simp [feedLoop]
  | .errEntry p :: rest, sch, eq => by
    cases p with
    | true => simpa [feedLoop] using feedLoop_closed al older newer now fake rest sch eq
    | false => simp [feedLoop]
  | .objEntry t pth sz :: rest, sch, eq => by
    by_cases hk : keepEntry older newer now t = true
    · cases fake with
      | true =>
        simpa [feedLoop, hk] using feedLoop_closed al older newer now true rest sch eq
      | false =>
        rcases h : sendLoop sch eq with ⟨abt, sch', eq'⟩
        cases abt with
        | true => simp [feedLoop, hk, h]
        | false =>
          simpa [feedLoop, hk, h] using
            feedLoop_closed al older newer now false rest sch' eq'
    · rw [Bool.not_eq_true] at hk
      simpa [feedLoop, hk] using feedLoop_closed al older newer now fake rest sch eq

/-- A non-permission in-band listing error aborts the loop at its position:
earlier clean entries are processed, the feed channel is closed, no drain
runs, and the status is non-zero. -/
theorem feedLoop_err (al : String) (older newer : Option Int) (now : Int)
    (fake : Bool) :
    ∀ (pre post : List LEntry) (sch eq : List Bool),
    listingPermOnly pre = true → allPerm eq = true →
    (feedLoop al older newer now fake (pre ++ .errEntry false :: post) sch eq).printed =
      candKeysList al older newer now pre ∧
    (feedLoop al older newer now fake (pre ++ .errEntry false :: post) sch eq).sentDesc =
      (if fake then [] else candList older newer now pre) ∧
    (feedLoop al older newer now fake (pre ++ .errEntry false :: post) sch eq).feedClosed = true ∧
    (feedLoop al older newer now fake (pre ++ .errEntry false :: post) sch eq).drainRan = false ∧
    (feedLoop al older newer now fake (pre ++ .errEntry false :: post) sch eq).exitOk = false
  | [], post, sch, eq, _, _ => by
    simp [feedLoop, candKeysList, candList]
  | .errEntry p :: pre, post, sch, eq, hl, hq => by
    have hp : p = true ∧ listingPermOnly pre = true := by
      simpa [listingPermOnly] using hl
    obtain ⟨hp1, hl2⟩ := hp
    subst hp1
    have ih := feedLoop_err al older newer now fake pre post sch eq hl2 hq
    simpa [feedLoop, candKeysList, candList] using ih
  | .objEntry t pth sz :: pre, post, sch, eq, hl, hq => by
    have hl2 : listingPermOnly pre = true := by
      simpa [listingPermOnly] using hl
    by_cases hk : keepEntry older newer now t = true
    · cases fake with
      | true =>
        have ih := feedLoop_err al older newer now true pre post sch eq hl2 hq
        simp [feedLoop, hk, candKeysList, candList, ih.1, ih.2.1, ih.2.2.1,
          ih.2.2.2.1, ih.2.2.2.2]
      | false =>
        obtain ⟨sch', eq', hs, hq'⟩ := sendLoop_perm sch eq hq
        have ih := feedLoop_err al older newer now false pre post sch' eq' hl2 hq'
        simp [feedLoop, hk, hs, candKeysList, candList, ih.1, ih.2.1, ih.2.2.1,
          ih.2.2.2.1, ih.2.2.2.2]
    · rw [Bool.not_eq_true] at hk
      have ih := feedLoop_err al older newer now fake pre post sch eq hl2 hq
      simpa [feedLoop, hk, candKeysList, candList] using ih

/-- In fake mode the feed loop never sends a descriptor. -/
theorem feedLoop_fake_sent (al : String) (older newer : Option Int) (now : Int) :
    ∀ (l : List LEntry) (sch eq : List Bool),
    (feedLoop al older newer now true l sch eq).sentDesc = []
  | [], _, _ => by simp [feedLoop]
  | .errEntry p :: rest, sch, eq => by
    cases p with
    | true => simpa [feedLoop] using feedLoop_fake_sent al older newer now rest sch eq
    | false => simp [feedLoop]
  | .objEntry t pth sz :: rest, sch, eq => by
    by_cases hk : keepEntry older newer now t = true
    · simpa [feedLoop, hk] using feedLoop_fake_sent al older newer now rest sch eq
    · rw [Bool.not_eq_true] at hk
      simpa [feedLoop, hk] using feedLoop_fake_sent al older newer now rest sch eq

/-! ## Lemmas about metadata maps -/

theorem orO_none (a : Option String) : orO a none = a := by
  cases a <;> rfl

theorem lookupMeta_append (a b : Meta) (k : String) :
    lookupMeta (a ++ b) k = orO (lookupMeta a k) (lookupMeta b k) := by
  induction a with
  | nil => simp [lookupMeta, orO]
  | cons p rest ih =>
    obtain ⟨k', v⟩ := p
    by_cases h : k' = k
    · simp [lookupMeta, h, orO]
    · simp [lookupMeta, h, ih]

theorem lookupMeta_filter_ne (m : Meta) (k : String) :
    lookupMeta (m.filter (fun p => !(p.1 == k))) k = none := by
  induction m with
  | nil => rfl
  | cons p rest ih =>
    obtain ⟨k', v⟩ := p
    by_cases h : k' = k
    · simp [h, ih]
    · simp [List.filter_cons, h, lookupMeta, ih]

theorem lookupMeta_filter_other (m : Meta) (k k' : String) (hne : k' ≠ k) :
    lookupMeta (m.filter (fun p => !(p.1 == k))) k' = lookupMeta m k' := by
  induction m with
  | nil => rfl
  | cons p rest ih =>
    obtain ⟨k0, v⟩ := p
    by_cases h : k0 = k
    · subst h
      have : ¬ k0 = k' := fun he => hne he.symm
      simp [lookupMeta, this, ih]
    · rw [List.filter_cons, if_pos (by simp [h])]
      by_cases h2 : k0 = k'
      · simp [lookupMeta, h2]
      · simp [lookupMeta, h2, ih]

theorem lookupMeta_insert (m : Meta) (k v k' : String) :
    lookupMeta (insertMeta m k v) k' =
      if k = k' then some v else lookupMeta m k' := by
  unfold insertMeta
  rw [lookupMeta_append]
  by_cases h : k = k'
  · subst h
    rw [lookupMeta_filter_ne]
    simp [lookupMeta, orO]
  · rw [if_neg h, lookupMeta_filter_other m k k' (fun he => h he.symm)]
    simp [lookupMeta, h, orO_none]

theorem lookupMeta_none_of_not_mem (m : Meta) (k : String)
    (h : k ∉ m.map Prod.fst) : lookupMeta m k = none := by
  induction m with
  | nil => rfl
  | cons p rest ih =>
    simp only [List.map_cons, List.mem_cons] at h
    push_neg at h
    have : ¬ p.1 = k := fun he => h.1 he.symm
    obtain ⟨k', v⟩ := p
    simp only [lookupMeta]
    rw [if_neg this]
    exact ih h.2

theorem lookupMeta_mergeCanon : ∀ (src d : Meta) (k : String),
    (∀ p ∈ src, canonicalHeaderKey p.1 = p.1) → (src.map Prod.fst).Nodup →
    lookupMeta (mergeCanon d src) k = orO (lookupMeta src k) (lookupMeta d k)
  | [], d, k, _, _ => by simp [mergeCanon, lookupMeta, orO]
  | p :: src, d, k, hc, hnd => by
    have hstep : mergeCanon d (p :: src) =
        mergeCanon (insertMeta d p.1 p.2) src := by
      simp [mergeCanon, hc p (List.mem_cons_self p src)]
    have hnd2 : (src.map Prod.fst).Nodup := (List.nodup_cons.mp (by simpa using hnd)).2
    have hnotmem : p.1 ∉ src.map Prod.fst := (List.nodup_cons.mp (by simpa using hnd)).1
    have ih := lookupMeta_mergeCanon src (insertMeta d p.1 p.2) k
      (fun q hq => hc q (List.mem_cons_of_mem p hq)) hnd2
    rw [hstep, ih, lookupMeta_insert]
    obtain ⟨k0, v⟩ := p
    by_cases h : k0 = k
    · subst h
      rw [lookupMeta_none_of_not_mem src k0 hnotmem]
      simp [lookupMeta, orO]
    · simp [lookupMeta, h, orO]

theorem mem_insertMeta (m : Meta) (k v : String) (p : String × String)
    (h : p ∈ insertMeta m k v) : p ∈ m ∨ p = (k, v) := by
  unfold insertMeta at h
  rcases List.mem_append.mp h with h | h
  · exact Or.inl (List.mem_of_mem_filter h)
  · exact Or.inr (List.mem_singleton.mp h)

theorem mem_mergeCanon : ∀ (src d : Meta) (p : String × String),
    p ∈ mergeCanon d src →
    p ∈ d ∨ ∃ q ∈ src, p = (canonicalHeaderKey q.1, q.2)
  | [], d, p, h => Or.inl (by simpa [mergeCanon] using h)
  | q :: src, d, p, h => by
    have hstep : mergeCanon d (q :: src) =
        mergeCanon (insertMeta d (canonicalHeaderKey q.1) q.2) src := by
      simp [mergeCanon]
    rw [hstep] at h
    rcases mem_mergeCanon src (insertMeta d (canonicalHeaderKey q.1) q.2) p h with
      h2 | ⟨q', hq', he⟩
    · rcases mem_insertMeta _ _ _ p h2 with h3 | h3
      · exact Or.inl h3
      · exact Or.inr ⟨q, List.mem_cons_self q src, h3⟩
    · exact Or.inr ⟨q', List.mem_cons_of_mem q hq', he⟩

/-- A merge over well-formed sources preserves an entry property. -/
theorem mem_mergeCanon_wf (d src : Meta) (P : String × String → Prop)
    (hd : ∀ p ∈ d, P p) (hsrc : ∀ p ∈ src, P p)
    (hc : ∀ p ∈ src, canonicalHeaderKey p.1 = p.1) :
    ∀ p ∈ mergeCanon d src, P p := by
  intro p hp
  rcases mem_mergeCanon src d p hp with h | ⟨q, hq, he⟩
  · exact hd p h
  · rw [he, hc q hq]
    simpa using hsrc q hq

theorem filterMetadata_eq_self (m : Meta)
    (h : ∀ p ∈ m, (validHeaderFieldName p.1 && validHeaderFieldValue p.2) = true ∧
      (canonicalHeaderKey p.1).startsWith (canonicalHeaderKey sseKeyHeader) = false) :
    filterMetadata m = m := by
  unfold filterMetadata
  rw [List.filter_eq_self.mpr (fun p hp => (h p hp).1)]
  rw [List.filter_eq_self.mpr (fun p hp => by simp [(h p hp).2])]

/-- Unpacking of `wfMeta`. -/
theorem wfMeta_props (m : Meta) (h : wfMeta m = true) :
    (m.map Prod.fst).Nodup ∧ ∀ p ∈ m,
      validHeaderFieldName p.1 = true ∧ validHeaderFieldValue p.2 = true ∧
      canonicalHeaderKey p.1 = p.1 ∧
      (canonicalHeaderKey p.1).startsWith (canonicalHeaderKey sseKeyHeader) = false ∧
      p.1 ≠ lockModeKey ∧ p.1 ≠ lockRetainKey ∧ p.1 ≠ lockHoldKey := by
  unfold wfMeta at h
  rw [Bool.and_eq_true] at h
  refine ⟨by simpa using h.1, fun p hp => ?_⟩
  have h2 := List.all_eq_true.mp h.2 p hp
  simp only [Bool.and_eq_true, Bool.not_eq_true', beq_iff_eq, beq_eq_false_iff_ne] at h2
  exact ⟨h2.1.1.1.1.1.1, h2.1.1.1.1.1.2, h2.1.1.1.1.2, h2.1.1.1.2, h2.1.1.2,
    h2.1.2, h2.2⟩

/-! ## Lemmas about the upload pipeline -/

theorem upBaseMeta_trace (env : UpEnv) (u : URLs) :
    (upBaseMeta env u).1 = [] ∨ (upBaseMeta env u).1 = [.statCall] := by
  unfold upBaseMeta getAllMetadataM
  by_cases h : upSrcMeta0 u = []
  · rw [if_pos h]
    cases hc : env.clientOk with
    | false => simp
    | true =>
      simp only [Bool.not_true, if_false]
      cases env.allMetaStat <;> simp
  · rw [if_neg h]
    left
    rfl

theorem upBaseMeta_ok (env : UpEnv) (u : URLs) (ms : Meta)
    (hck : env.clientOk = true) (hstat : env.allMetaStat = .ok ms) :
    upBaseMeta env u = ([], .ok (upSrcMeta0 u)) ∨
    upBaseMeta env u =
      ([.statCall], .ok (filterMetadata (mergeCanon (mergeCanon [] ms) u.tgtUserMeta))) := by
  unfold upBaseMeta getAllMetadataM
  by_cases h : upSrcMeta0 u = []
  · rw [if_pos h, hck, hstat]
    right
    rfl
  · rw [if_neg h]
    left
    rfl

theorem getSourceStreamM_ok (env : UpEnv) (stm : Meta) (pct : String)
    (hck : env.clientOk = true) (hget : env.srcGetErr = none)
    (hstat : env.srcStat = .ok stm) (hprobe : env.probeRes = .ok pct) :
    ∃ md, getSourceStreamM env = ([.getCall, .statCall], .ok md) := by
  unfold getSourceStreamM
  rw [hck, hget, hstat]
  simp only [Bool.not_true, Bool.false_eq_true, if_false]
  split
  · rw [hprobe]
    exact ⟨_, rfl⟩
  · exact ⟨_, rfl⟩

theorem countGet_append (a b : List CallOp) :
    countGet (a ++ b) = countGet a + countGet b := by
  simp [countGet, List.filter_append]

theorem countPut_append (a b : List CallOp) :
    countPut (a ++ b) = countPut a + countPut b := by
  simp [countPut, List.filter_append]

theorem countCopy_append (a b : List CallOp) :
    countCopy (a ++ b) = countCopy a + countCopy b := by
  simp [countCopy, List.filter_append]

/-! ## Claim C2 -/

/-- Claim C2: during recursive removal, permission-classified failures
(in-band listing error entries or error-channel deliveries) are logged and
skipped and all subsequent listed objects are still processed — a run whose
failures are all permission failures processes the complete candidate set
and exits with a nil status; any other failure aborts immediately with the
feed channel closed and a non-zero status: a non-permission listing entry
stops processing at its position, and a non-permission channel failure
delivered during a send aborts before the send completes. -/
theorem rm_failure_classification :
    (∀ i : RmIn, i.clientOk = true → listingPermOnly i.listing = true →
      allPerm i.errq = true →
      (removeRecursive i).exitOk = true ∧ (removeRecursive i).feedClosed = true ∧
      (removeRecursive i).printed = rmCandKeys i ∧
      (removeRecursive i).sentDesc = (if i.isFake then [] else rmCandidates i)) ∧
    (∀ (i : RmIn) (pre post : List LEntry), i.clientOk = true →
      i.listing = pre ++ .errEntry false :: post → listingPermOnly pre = true →
      allPerm i.errq = true →
      (removeRecursive i).exitOk = false ∧ (removeRecursive i).feedClosed = true ∧
      (removeRecursive i).printed =
        candKeysList i.targetAlias i.olderThan i.newerThan i.now pre) ∧
    (∀ (i : RmIn) (t : Int) (p : String) (s : Int) (rest : List LEntry)
      (sch' eq' : List Bool), i.clientOk = true → i.isFake = false →
      i.listing = .objEntry t p s :: rest →
      keepEntry i.olderThan i.newerThan i.now t = true →
      i.sched = true :: sch' → i.errq = false :: eq' →
      (removeRecursive i).exitOk = false ∧ (removeRecursive i).feedClosed = true ∧
      (removeRecursive i).sentDesc = [] ∧
      (removeRecursive i).printed = [(i.targetAlias ++ p, s)] ∧
      (removeRecursive i).leftover = eq') := by
  refine ⟨?_, ?_, ?_⟩
  · intro i h1 h2 h3
    have hc := feedLoop_clean i.targetAlias i.olderThan i.newerThan i.now
      i.isFake i.listing i.sched i.errq h2 h3
    simp only [removeRecursive, h1, if_true]
    exact ⟨hc.2.2.2.2.2, hc.2.2.1, hc.1, hc.2.1⟩
  · intro i pre post h1 hlist hpre hq
    have he := feedLoop_err i.targetAlias i.olderThan i.newerThan i.now
      i.isFake pre post i.sched i.errq hpre hq
    simp only [removeRecursive, h1, if_true, hlist]
    exact ⟨he.2.2.2.2, he.2.2.1, he.1⟩
  · intro i t p s rest sch' eq' h1 hf hlist hk hsch heq
    simp only [removeRecursive, h1, if_true, hlist, hsch, heq, hf]
    simp [feedLoop, hk, sendLoop]

/-- Claim C2, witness: a run with one permission listing failure, one
permission channel failure and one candidate completes with a nil status
and processes the candidate. -/
theorem rm_failure_classification_witness :
    (removeRecursive ⟨true, "s3", [.errEntry true, .objEntry 905 "/b/x" 7],
        some 90, none, 1000, false, [true], [true]⟩).exitOk = true ∧
    (removeRecursive ⟨true, "s3", [.errEntry true, .objEntry 905 "/b/x" 7],
        some 90, none, 1000, false, [true], [true]⟩).feedClosed = true ∧
    (removeRecursive ⟨true, "s3", [.errEntry true, .objEntry 905 "/b/x" 7],
        some 90, none, 1000, false, [true], [true]⟩).printed =
      rmCandKeys ⟨true, "s3", [.errEntry true, .objEntry 905 "/b/x" 7],
        some 90, none, 1000, false, [true], [true]⟩ ∧
    (removeRecursive ⟨true, "s3", [.errEntry true, .objEntry 905 "/b/x" 7],
        some 90, none, 1000, false, [true], [true]⟩).sentDesc =
      (if (⟨true, "s3", [.errEntry true, .objEntry 905 "/b/x" 7],
        some 90, none, 1000, false, [true], [true]⟩ : RmIn).isFake then []
       else rmCandidates ⟨true, "s3", [.errEntry true, .objEntry 905 "/b/x" 7],
        some 90, none, 1000, false, [true], [true]⟩) :=
  rm_failure_classification.1
    ⟨true, "s3", [.errEntry true, .objEntry 905 "/b/x" 7],
      some 90, none, 1000, false, [true], [true]⟩ rfl (by decide) (by decide)

/-! ## Claim C3 -/

/-- Claim C3, counterexample: a non-permission listing error aborts the
recursive removal with the feed channel closed but with the remaining
failure on the removal error channel left undrained — `removeRecursive`
returns while `leftover` still holds a failure and the drain loop never
ran, contradicting the claim that on early-abort paths all remaining
failures are drained before returning. -/
theorem rm_drain_counterexample :
    (removeRecursive ⟨true, "s3", [.errEntry false], none, none, 1000,
        false, [], [true]⟩).feedClosed = true ∧
    (removeRecursive ⟨true, "s3", [.errEntry false], none, none, 1000,
        false, [], [true]⟩).drainRan = false ∧
    (removeRecursive ⟨true, "s3", [.errEntry false], none, none, 1000,
        false, [], [true]⟩).leftover = [true] :=
  ⟨rfl, rfl, rfl⟩

/-- Claim C3 (amended): the feed channel is closed on every path through
the feed loop, and after the loop finishes with no abort the remaining
failures are drained before returning; but on the early-abort paths (a
non-permission listing entry, or a non-permission failure received while
sending) the function returns with the feed channel closed and the error
channel not drained. -/
theorem rm_drain_on_return :
    (∀ i : RmIn, i.clientOk = true → (removeRecursive i).feedClosed = true) ∧
    (∀ i : RmIn, i.clientOk = true → listingPermOnly i.listing = true →
      allPerm i.errq = true →
      (removeRecursive i).drainRan = true ∧ (removeRecursive i).leftover = []) ∧
    (∀ (i : RmIn) (pre post : List LEntry), i.clientOk = true →
      i.listing = pre ++ .errEntry false :: post → listingPermOnly pre = true →
      allPerm i.errq = true → (removeRecursive i).drainRan = false) ∧
    (∀ (i : RmIn) (t : Int) (p : String) (s : Int) (rest : List LEntry)
      (sch' eq' : List Bool), i.clientOk = true → i.isFake = false →
      i.listing = .objEntry t p s :: rest →
      keepEntry i.olderThan i.newerThan i.now t = true →
      i.sched = true :: sch' → i.errq = false :: eq' →
      (removeRecursive i).drainRan = false ∧
      (removeRecursive i).feedClosed = true ∧
      (removeRecursive i).leftover = eq') := by
  refine ⟨?_, ?_, ?_, ?_⟩
  · intro i h1
    simp only [removeRecursive, h1, if_true]
    exact feedLoop_closed i.targetAlias i.olderThan i.newerThan i.now i.isFake
      i.listing i.sched i.errq
  · intro i h1 h2 h3
    have hc := feedLoop_clean i.targetAlias i.olderThan i.newerThan i.now
      i.isFake i.listing i.sched i.errq h2 h3
    simp only [removeRecursive, h1, if_true]
    exact ⟨hc.2.2.2.1, hc.2.2.2.2.1⟩
  · intro i pre post h1 hlist hpre hq
    have he := feedLoop_err i.targetAlias i.olderThan i.newerThan i.now
      i.isFake pre post i.sched i.errq hpre hq
    simp only [removeRecursive, h1, if_true, hlist]
    exact he.2.2.2.1
  · intro i t p s rest sch' eq' h1 hf hlist hk hsch heq
    simp only [removeRecursive, h1, if_true, hlist, hsch, heq, hf]
    simp [feedLoop, hk, sendLoop]

/-- Claim C3, witness: a clean run drains the error channel completely. -/
theorem rm_drain_on_return_witness :
    (removeRecursive ⟨true, "s3", [.objEntry 905 "/b/x" 7], some 90, none,
        1000, false, [], [true, true]⟩).drainRan = true ∧
    (removeRecursive ⟨true, "s3", [.objEntry 905 "/b/x" 7], some 90, none,
        1000, false, [], [true, true]⟩).leftover = [] :=
  rm_drain_on_return.2.1
    ⟨true, "s3", [.objEntry 905 "/b/x" 7], some 90, none, 1000, false, [],
      [true, true]⟩ rfl (by decide) (by decide)

/-! ## Claim C6 -/

/-- Claim C6: recursive removal with an older-than cutoff of 90 days over a
listing aged 10, 95 and 200 days (times 990, 905 and 800 at now = 1000, in
days) sends exactly the 95-day and 200-day entries to the backend remove
call and completes with a nil status. -/
theorem rm_older_than_scenario :
    (removeRecursive ⟨true, "s3", [.objEntry 990 "/jazz-songs/louis/a" 1,
        .objEntry 905 "/jazz-songs/louis/b" 2,
        .objEntry 800 "/jazz-songs/louis/c" 3],
        some 90, none, 1000, false, [], []⟩).sentDesc =
      [(905, "/jazz-songs/louis/b", 2), (800, "/jazz-songs/louis/c", 3)] ∧
    (removeRecursive ⟨true, "s3", [.objEntry 990 "/jazz-songs/louis/a" 1,
        .objEntry 905 "/jazz-songs/louis/b" 2,
        .objEntry 800 "/jazz-songs/louis/c" 3],
        some 90, none, 1000, false, [], []⟩).exitOk = true :=
  ⟨rfl, rfl⟩

/-! ## Claim C7 -/

/-- Claim C7, counterexample: with an older-than cutoff of 90 at now =
1000, the object timestamped 905 — strictly older than the cutoff instant
910 — IS passed to the backend remove call, and the object timestamped 990
— strictly newer than the cutoff instant — is NOT, the exact opposite of
the claimed directions. -/
theorem rm_age_direction_counterexample :
    ((905 : Int) < 1000 - 90) ∧
    (removeRecursive ⟨true, "s3", [.objEntry 905 "/b/x" 7], some 90, none,
        1000, false, [], []⟩).sentDesc = [(905, "/b/x", 7)] ∧
    ((990 : Int) > 1000 - 90) ∧
    (removeRecursive ⟨true, "s3", [.objEntry 990 "/b/y" 8], some 90, none,
        1000, false, [], []⟩).sentDesc = [] :=
  ⟨by decide, rfl, by decide, rfl⟩

/-- Claim C7 (amended): in a clean non-fake recursive removal with an
older-than cutoff `d`, a listed object whose (nonzero) timestamp is
strictly older than the cutoff instant `now - d` is passed to the backend
remove call, and an object whose timestamp is strictly newer than the
cutoff instant is never passed. -/
theorem rm_age_cutoff (i : RmIn) (d t : Int) (p : String) (s : Int)
    (hold : i.olderThan = some d) (hnew : i.newerThan = none)
    (hck : i.clientOk = true) (hl : listingPermOnly i.listing = true)
    (hq : allPerm i.errq = true) (hf : i.isFake = false) :
    (LEntry.objEntry t p s ∈ i.listing → t ≠ 0 → t < i.now - d →
      (t, p, s) ∈ (removeRecursive i).sentDesc) ∧
    (t > i.now - d → (t, p, s) ∉ (removeRecursive i).sentDesc) := by
  have hc := feedLoop_clean i.targetAlias i.olderThan i.newerThan i.now
    i.isFake i.listing i.sched i.errq hl hq
  have hsent : (removeRecursive i).sentDesc =
      candList i.olderThan i.newerThan i.now i.listing := by
    simp only [removeRecursive, hck, if_true]
    rw [hc.2.1, hf]
    simp
  constructor
  · intro hmem h0 hlt
    rw [hsent]
    refine List.mem_filterMap.mpr ⟨.objEntry t p s, hmem, ?_⟩
    have hkeep : keepEntry i.olderThan i.newerThan i.now t = true := by
      rw [hold, hnew]
      simp only [keepEntry, isOlder]
      rw [if_neg h0, if_neg (by simp; omega), if_neg (by simp)]
    simp [hkeep]
  · intro hgt hmem
    rw [hsent] at hmem
    obtain ⟨e, hel, hfe⟩ := List.mem_filterMap.mp hmem
    cases e with
    | errEntry q => simp at hfe
    | objEntry t' p' s' =>
      replace hfe : (if keepEntry i.olderThan i.newerThan i.now t' = true
          then some (t', p', s') else none) = some (t, p, s) := hfe
      by_cases hk : keepEntry i.olderThan i.newerThan i.now t' = true
      · rw [if_pos hk] at hfe
        injection hfe with hfe
        simp only [Prod.mk.injEq] at hfe
        obtain ⟨ht, -, -⟩ := hfe
        subst ht
        have hkf : keepEntry i.olderThan i.newerThan i.now t' = false := by
          rw [hold, hnew]
          simp only [keepEntry, isOlder]
          by_cases h0 : t' = 0
          · rw [if_pos h0]
          · rw [if_neg h0, if_pos (by simp only [decide_eq_true_eq]; omega)]
        rw [hkf] at hk
        cases hk
      · rw [if_neg hk] at hfe
        cases hfe

/-- Claim C7, witness: the 95-day-old object is passed to the backend
remove call under a 90-day cutoff. -/
theorem rm_age_cutoff_witness :
    ((905 : Int), "/b/x", (7 : Int)) ∈
      (removeRecursive ⟨true, "s3", [.objEntry 905 "/b/x" 7], some 90, none,
        1000, false, [], []⟩).sentDesc :=
  (rm_age_cutoff ⟨true, "s3", [.objEntry 905 "/b/x" 7], some 90, none, 1000,
      false, [], []⟩ 90 905 "/b/x" 7 rfl rfl rfl (by decide) (by decide) rfl).1
    (by decide) (by decide) (by decide)

/-! ## Claim C10 -/

/-- Claim C10: with fake (dry-run) mode enabled, `removeRecursive` and
`removeSingle` send no descriptor to the backend `Remove` call, while a
fake run still performs the listing and filtering and prints exactly the
candidate set that a clean real run with the same inputs sends to remove
(and the same messages the real run prints). -/
theorem rm_fake_mode :
    (∀ i : RmIn, i.isFake = true → (removeRecursive i).sentDesc = []) ∧
    (∀ i : RmIn, i.clientOk = true → listingPermOnly i.listing = true →
      allPerm i.errq = true →
      (removeRecursive { i with isFake := true }).printed = rmCandKeys i ∧
      (removeRecursive { i with isFake := false }).sentDesc = rmCandidates i ∧
      (removeRecursive { i with isFake := true }).printed =
        (removeRecursive { i with isFake := false }).sentDesc.map
          (fun d => (i.targetAlias ++ d.2.1, d.2.2)) ∧
      (removeRecursive { i with isFake := true }).printed =
        (removeRecursive { i with isFake := false }).printed) ∧
    (∀ i : RsIn, i.isFake = true →
      (removeSingle i).sentURLs = [] ∧
      (removeSingle { i with isFake := false }).printed = (removeSingle i).printed ∧
      (i.clientOk = true →
        (removeSingle { i with isFake := false }).sentURLs.length =
          (removeSingle i).printed.length)) := by
  refine ⟨?_, ?_, ?_⟩
  · intro i hf
    by_cases hck : i.clientOk = true
    · simp only [removeRecursive, hck, if_true]
      rw [hf]
      exact feedLoop_fake_sent i.targetAlias i.olderThan i.newerThan i.now
        i.listing i.sched i.errq
    · simp only [Bool.not_eq_true] at hck
      simp [removeRecursive, hck]
  · intro i h1 h2 h3
    have hcT := feedLoop_clean i.targetAlias i.olderThan i.newerThan i.now
      true i.listing i.sched i.errq h2 h3
    have hcF := feedLoop_clean i.targetAlias i.olderThan i.newerThan i.now
      false i.listing i.sched i.errq h2 h3
    have eT : (removeRecursive { i with isFake := true }).printed =
        candKeysList i.targetAlias i.olderThan i.newerThan i.now i.listing := by
      simp only [removeRecursive, h1, if_true]
      exact hcT.1
    have eF : (removeRecursive { i with isFake := false }).sentDesc =
        candList i.olderThan i.newerThan i.now i.listing := by
      simp only [removeRecursive, h1, if_true]
      rw [hcF.2.1]
      simp
    have eFp : (removeRecursive { i with isFake := false }).printed =
        candKeysList i.targetAlias i.olderThan i.newerThan i.now i.listing := by
      simp only [removeRecursive, h1, if_true]
      exact hcF.1
    refine ⟨eT, eF, ?_, ?_⟩
    · rw [eT, eF]
      rfl
    · rw [eT, eFp]
  · intro i hf
    cases hst : i.statRes with
    | error e => simp [removeSingle, hst]
    | ok L =>
      cases L with
      | nil => simp [removeSingle, hst]
      | cons c rest =>
        obtain ⟨t, sz, dir⟩ := c
        simp only [removeSingle, hst]
        split
        · simp
        · split
          · simp
          · by_cases hck : i.clientOk = true
            · simp [hf, hck]
            · simp only [Bool.not_eq_true] at hck
              simp [hf, hck]

/-- Claim C10, witness: a fake run over the 90-day scenario listing prints
the two candidates and sends nothing, matching the clean real run. -/
theorem rm_fake_mode_witness :
    (removeRecursive { (⟨true, "s3", [.objEntry 905 "/b/x" 7], some 90, none,
        1000, false, [], []⟩ : RmIn) with isFake := true }).printed =
      rmCandKeys ⟨true, "s3", [.objEntry 905 "/b/x" 7], some 90, none,
        1000, false, [], []⟩ ∧
    (removeRecursive { (⟨true, "s3", [.objEntry 905 "/b/x" 7], some 90, none,
        1000, false, [], []⟩ : RmIn) with isFake := false }).sentDesc =
      rmCandidates ⟨true, "s3", [.objEntry 905 "/b/x" 7], some 90, none,
        1000, false, [], []⟩ :=
  ⟨(rm_fake_mode.2.1 ⟨true, "s3", [.objEntry 905 "/b/x" 7], some 90, none,
      1000, false, [], []⟩ rfl (by decide) (by decide)).1,
   (rm_fake_mode.2.1 ⟨true, "s3", [.objEntry 905 "/b/x" 7], some 90, none,
      1000, false, [], []⟩ rfl (by decide) (by decide)).2.1⟩

/-! ## Claim C1 -/

/-- Claim C1, counterexample: `uploadSourceToTargetURL` ranges over the
source's user-supplied metadata first and the source's stored metadata
second (lines 447-452), so for the key `X-Amz-Meta-Foo` present in both,
the STORED value — not the user-supplied one — reaches the map handed to
`Client.Copy`, contradicting the claimed precedence. -/
theorem copy_metadata_counterexample :
    (copyMetas (uploadSourceToTargetURL
        ⟨true, .ok "", .ok [], none, false, .ok [], .ok "", true, none, none, none⟩
        ⟨"a1", "a1", 0, [("X-Amz-Meta-Foo", "stored")],
          [("X-Amz-Meta-Foo", "user")], false, [], [], false, "", false, ""⟩).1).map
      (fun m => lookupMeta m "X-Amz-Meta-Foo") = [some "stored"] ∧
    some "stored" ≠ some "user" := by
  refine ⟨rfl, by decide⟩

/-- Claim C1 (amended): in the same-alias `Copy` branch, the merged
metadata obeys the precedence source user-supplied < source stored <
target stored < target user-supplied (later layers overriding earlier); in
particular for a key present in both source maps the STORED value is the
one handed to `Client.Copy`.  (In the cross-alias `Put` branch the merged
source maps are discarded entirely: the map is rebuilt from the source
stat.) -/
theorem copy_metadata_precedence (env : UpEnv) (u : URLs) (k : String)
    (halias : u.sourceAlias = u.targetAlias)
    (hret : u.tgtRetentionEnabled = false)
    (hlh : u.tgtLegalHoldEnabled = false)
    (hsrcret : u.srcRetentionEnabled = false)
    (hck : env.clientOk = true)
    (hne : upSrcMeta0 u ≠ [])
    (hwf1 : wfMeta u.srcUserMeta = true) (hwf2 : wfMeta u.srcMeta = true)
    (hwf3 : wfMeta u.tgtMeta = true) (hwf4 : wfMeta u.tgtUserMeta = true)
    (hk1 : k ≠ lockModeKey) (hk2 : k ≠ lockRetainKey) (hk3 : k ≠ lockHoldKey) :
    ∃ md, copyMetas (uploadSourceToTargetURL env u).1 = [md] ∧
      lookupMeta md k =
        orO (lookupMeta u.tgtUserMeta k)
          (orO (lookupMeta u.tgtMeta k)
            (orO (lookupMeta u.srcMeta k) (lookupMeta u.srcUserMeta k))) := by
  obtain ⟨hnd1, hprops1⟩ := wfMeta_props _ hwf1
  obtain ⟨hnd2, hprops2⟩ := wfMeta_props _ hwf2
  obtain ⟨hnd3, hprops3⟩ := wfMeta_props _ hwf3
  obtain ⟨hnd4, hprops4⟩ := wfMeta_props _ hwf4
  have hval : upValidate env u = .ok ("", "", "") := by
    simp [upValidate, hret, hlh]
  have hbase : upBaseMeta env u = ([], .ok (upSrcMeta0 u)) := by
    unfold upBaseMeta
    rw [if_neg hne]
  have hrun : uploadSourceToTargetURL env u =
      ([.copyCall (insertMeta (insertMeta (insertMeta
          (filterMetadata (upTgtMerged u (upSrcMeta0 u))) lockModeKey "")
          lockRetainKey "") lockHoldKey "")], env.copyErr) := by
    unfold uploadSourceToTargetURL
    simp only [hval]
    rw [if_pos halias]
    simp only [hbase]
    rw [hsrcret]
    unfold copySourceToTargetURLM
    rw [hck]
    simp
  have hMprops : ∀ p ∈ upTgtMerged u (upSrcMeta0 u),
      (validHeaderFieldName p.1 && validHeaderFieldValue p.2) = true ∧
      (canonicalHeaderKey p.1).startsWith (canonicalHeaderKey sseKeyHeader) = false := by
    unfold upTgtMerged upSrcMeta0
    apply mem_mergeCanon_wf
    · apply mem_mergeCanon_wf
      · apply mem_mergeCanon_wf
        · apply mem_mergeCanon_wf
          · intro p hp
            exact absurd hp (List.not_mem_nil p)
          · intro p hp
            obtain ⟨v1, v2, _, v4, -⟩ := hprops1 p hp
            exact ⟨by rw [Bool.and_eq_true]; exact ⟨v1, v2⟩, v4⟩
          · intro p hp
            exact (hprops1 p hp).2.2.1
        · intro p hp
          obtain ⟨v1, v2, _, v4, -⟩ := hprops2 p hp
          exact ⟨by rw [Bool.and_eq_true]; exact ⟨v1, v2⟩, v4⟩
        · intro p hp
          exact (hprops2 p hp).2.2.1
      · intro p hp
        obtain ⟨v1, v2, _, v4, -⟩ := hprops3 p hp
        exact ⟨by rw [Bool.and_eq_true]; exact ⟨v1, v2⟩, v4⟩
      · intro p hp
        exact (hprops3 p hp).2.2.1
    · intro p hp
      obtain ⟨v1, v2, _, v4, -⟩ := hprops4 p hp
      exact ⟨by rw [Bool.and_eq_true]; exact ⟨v1, v2⟩, v4⟩
    · intro p hp
      exact (hprops4 p hp).2.2.1
  refine ⟨_, by rw [hrun]; rfl, ?_⟩
  rw [lookupMeta_insert, if_neg (fun he => hk3 he.symm)]
  rw [lookupMeta_insert, if_neg (fun he => hk2 he.symm)]
  rw [lookupMeta_insert, if_neg (fun he => hk1 he.symm)]
  rw [filterMetadata_eq_self _ hMprops]
  unfold upTgtMerged upSrcMeta0
  rw [lookupMeta_mergeCanon u.tgtUserMeta _ k
    (fun p hp => (hprops4 p hp).2.2.1) hnd4]
  rw [lookupMeta_mergeCanon u.tgtMeta _ k
    (fun p hp => (hprops3 p hp).2.2.1) hnd3]
  rw [lookupMeta_mergeCanon u.srcMeta _ k
    (fun p hp => (hprops2 p hp).2.2.1) hnd2]
  rw [lookupMeta_mergeCanon u.srcUserMeta _ k
    (fun p hp => (hprops1 p hp).2.2.1) hnd1]
  rw [show lookupMeta [] k = none from rfl, orO_none]

/-- Claim C1, witness: with disjoint well-formed maps the chain is realized
at a concrete input. -/
theorem copy_metadata_precedence_witness :
    ∃ md, copyMetas (uploadSourceToTargetURL
        ⟨true, .ok "", .ok [], none, false, .ok [], .ok "", true, none, none, none⟩
        ⟨"a1", "a1", 0, [("X-Amz-Meta-Foo", "stored")],
          [("X-Amz-Meta-Foo", "user")], false, [], [], false, "", false, ""⟩).1
        = [md] ∧
      lookupMeta md "X-Amz-Meta-Foo" =
        orO (lookupMeta [] "X-Amz-Meta-Foo")
          (orO (lookupMeta [] "X-Amz-Meta-Foo")
            (orO (lookupMeta [("X-Amz-Meta-Foo", "stored")] "X-Amz-Meta-Foo")
              (lookupMeta [("X-Amz-Meta-Foo", "user")] "X-Amz-Meta-Foo"))) :=
  copy_metadata_precedence
    ⟨true, .ok "", .ok [], none, false, .ok [], .ok "", true, none, none, none⟩
    ⟨"a1", "a1", 0, [("X-Amz-Meta-Foo", "stored")],
      [("X-Amz-Meta-Foo", "user")], false, [], [], false, "", false, ""⟩
    "X-Amz-Meta-Foo" rfl rfl rfl rfl rfl (by decide) (by decide) (by decide)
    (by decide) (by decide) (by decide) (by decide) (by decide)

/-! ## Claim C4 -/

/-- Claim C4, counterexample: when the source content has retention
enabled, a cross-alias transfer performs a metadata-only retention update —
no read stream is opened (zero Get) and nothing is Put, contradicting
"when they resolve to different aliases it always opens a read stream from
the source and writes it to the target with Put"; symmetrically, the
same-alias run issues zero Copy calls, contradicting "issues a single
in-backend Copy call". -/
theorem upload_route_counterexample :
    ("a1" : String) ≠ "b2" ∧
    countGet (uploadSourceToTargetURL
        ⟨true, .ok "", .ok [], none, false, .ok [], .ok "", true, none, none, none⟩
        ⟨"a1", "b2", 0, [], [("X-Amz-Meta-A", "v")], true, [], [], false, "",
          false, ""⟩).1 = 0 ∧
    countPut (uploadSourceToTargetURL
        ⟨true, .ok "", .ok [], none, false, .ok [], .ok "", true, none, none, none⟩
        ⟨"a1", "b2", 0, [], [("X-Amz-Meta-A", "v")], true, [], [], false, "",
          false, ""⟩).1 = 0 ∧
    countCopy (uploadSourceToTargetURL
        ⟨true, .ok "", .ok [], none, false, .ok [], .ok "", true, none, none, none⟩
        ⟨"a1", "a1", 0, [], [("X-Amz-Meta-A", "v")], true, [], [], false, "",
          false, ""⟩).1 = 0 := by
  refine ⟨by decide, rfl, rfl, rfl⟩

/-- Claim C4 (amended): a same-alias transfer never opens a read stream on
the source and never Puts, on any path; if moreover no validation error
occurs, the source content has no retention enabled, the client is created
and the merged source metadata is nonempty, it issues exactly one
in-backend Copy; a cross-alias transfer whose source retention is not
enabled and whose stream opens successfully issues exactly one Get and one
Put and no Copy. -/
theorem upload_route :
    (∀ (env : UpEnv) (u : URLs), u.sourceAlias = u.targetAlias →
      countGet (uploadSourceToTargetURL env u).1 = 0 ∧
      countPut (uploadSourceToTargetURL env u).1 = 0) ∧
    (∀ (env : UpEnv) (u : URLs), u.sourceAlias = u.targetAlias →
      u.tgtRetentionEnabled = false → u.tgtLegalHoldEnabled = false →
      u.srcRetentionEnabled = false → env.clientOk = true → upSrcMeta0 u ≠ [] →
      countCopy (uploadSourceToTargetURL env u).1 = 1 ∧
      countGet (uploadSourceToTargetURL env u).1 = 0 ∧
      countPut (uploadSourceToTargetURL env u).1 = 0) ∧
    (∀ (env : UpEnv) (u : URLs) (stm : Meta) (pct : String),
      u.sourceAlias ≠ u.targetAlias →
      u.tgtRetentionEnabled = false → u.tgtLegalHoldEnabled = false →
      u.srcRetentionEnabled = false → env.clientOk = true →
      env.srcGetErr = none → env.srcStat = .ok stm → env.probeRes = .ok pct →
      countGet (uploadSourceToTargetURL env u).1 = 1 ∧
      countPut (uploadSourceToTargetURL env u).1 = 1 ∧
      countCopy (uploadSourceToTargetURL env u).1 = 0) := by
  refine ⟨?_, ?_, ?_⟩
  · intro env u halias
    unfold uploadSourceToTargetURL
    split
    · simp [countGet, countPut]
    · rw [if_pos halias]
      split
      · rename_i t1 e heq
        have ht := upBaseMeta_trace env u
        rw [heq] at ht
        simp only at ht
        rcases ht with h | h <;> subst h <;> simp [countGet, countPut]
      · rename_i t1 md1 heq
        have ht := upBaseMeta_trace env u
        rw [heq] at ht
        simp only at ht
        unfold putTargetRetentionM copySourceToTargetURLM
        rcases ht with h | h <;> subst h <;>
          cases hc : env.clientOk <;>
          split <;>
          simp [countGet, countPut, countGet_append, countPut_append,
            List.filter_append]
  · intro env u halias hret hlh hsrcret hck hne
    have hval : upValidate env u = .ok ("", "", "") := by
      simp [upValidate, hret, hlh]
    have hbase : upBaseMeta env u = ([], .ok (upSrcMeta0 u)) := by
      unfold upBaseMeta
      rw [if_neg hne]
    have hrun : (uploadSourceToTargetURL env u).1 =
        [.copyCall (insertMeta (insertMeta (insertMeta
          (filterMetadata (upTgtMerged u (upSrcMeta0 u))) lockModeKey "")
          lockRetainKey "") lockHoldKey "")] := by
      unfold uploadSourceToTargetURL
      simp only [hval]
      rw [if_pos halias]
      simp only [hbase]
      rw [hsrcret]
      unfold copySourceToTargetURLM
      rw [hck]
      simp
    rw [hrun]
    exact ⟨rfl, rfl, rfl⟩
  · intro env u stm pct halias hret hlh hsrcret hck hget hstat hprobe
    have hval : upValidate env u = .ok ("", "", "") := by
      simp [upValidate, hret, hlh]
    obtain ⟨md, hgs⟩ := getSourceStreamM_ok env stm pct hck hget hstat hprobe
    have hrun : (uploadSourceToTargetURL env u).1 =
        [.getCall, .statCall] ++
          (putTargetStreamM env "" "" "" (filterMetadata (upTgtMerged u md))
            (!env.srcIsReadAt)).1 := by
      unfold uploadSourceToTargetURL
      simp only [hval]
      rw [if_neg halias, hsrcret]
      simp only [hgs]
      simp
    rw [hrun]
    unfold putTargetStreamM
    rw [hck]
    simp [countGet, countPut, countCopy, countGet_append, countPut_append,
      countCopy_append]

/-- Claim C4, witness: the same-alias run issues one Copy and no Get/Put;
the cross-alias run issues one Get and one Put and no Copy. -/
theorem upload_route_witness :
    (countCopy (uploadSourceToTargetURL
        ⟨true, .ok "", .ok [], none, false, .ok [], .ok "", true, none, none, none⟩
        ⟨"a1", "a1", 0, [("X-Amz-Meta-A", "v")], [], false, [], [], false, "",
          false, ""⟩).1 = 1 ∧
      countGet (uploadSourceToTargetURL
        ⟨true, .ok "", .ok [], none, false, .ok [], .ok "", true, none, none, none⟩
        ⟨"a1", "a1", 0, [("X-Amz-Meta-A", "v")], [], false, [], [], false, "",
          false, ""⟩).1 = 0 ∧
      countPut (uploadSourceToTargetURL
        ⟨true, .ok "", .ok [], none, false, .ok [], .ok "", true, none, none, none⟩
        ⟨"a1", "a1", 0, [("X-Amz-Meta-A", "v")], [], false, [], [], false, "",
          false, ""⟩).1 = 0) ∧
    (countGet (uploadSourceToTargetURL
        ⟨true, .ok "", .ok [], none, false, .ok [], .ok "", true, none, none, none⟩
        ⟨"a1", "b2", 0, [("X-Amz-Meta-A", "v")], [], false, [], [], false, "",
          false, ""⟩).1 = 1 ∧
      countPut (uploadSourceToTargetURL
        ⟨true, .ok "", .ok [], none, false, .ok [], .ok "", true, none, none, none⟩
        ⟨"a1", "b2", 0, [("X-Amz-Meta-A", "v")], [], false, [], [], false, "",
          false, ""⟩).1 = 1 ∧
      countCopy (uploadSourceToTargetURL
        ⟨true, .ok "", .ok [], none, false, .ok [], .ok "", true, none, none, none⟩
        ⟨"a1", "b2", 0, [("X-Amz-Meta-A", "v")], [], false, [], [], false, "",
          false, ""⟩).1 = 0) :=
  ⟨upload_route.2.1
      ⟨true, .ok "", .ok [], none, false, .ok [], .ok "", true, none, none, none⟩
      ⟨"a1", "a1", 0, [("X-Amz-Meta-A", "v")], [], false, [], [], false, "",
        false, ""⟩ rfl rfl rfl rfl rfl (by decide),
   upload_route.2.2
      ⟨true, .ok "", .ok [], none, false, .ok [], .ok "", true, none, none, none⟩
      ⟨"a1", "b2", 0, [("X-Amz-Meta-A", "v")], [], false, [], [], false, "",
        false, ""⟩ [] "" (by decide) rfl rfl rfl rfl rfl rfl rfl⟩

/-! ## Claim C5 -/

/-- Claim C5: when the source content has retention enabled (and the
target's overrides validate), `uploadSourceToTargetURL` performs only the
metadata-only retention update — at most a preparatory stat when the merged
source metadata is empty — and returns its result immediately: no
in-backend Copy, no Get, no Put, and none of the merge/filter-and-transfer
work that follows the early return in either branch. -/
theorem upload_retention_only (env : UpEnv) (u : URLs) (ms : Meta)
    (hsrc : u.srcRetentionEnabled = true) (hck : env.clientOk = true)
    (hstat : env.allMetaStat = .ok ms)
    (hret : u.tgtRetentionEnabled = false) (hlh : u.tgtLegalHoldEnabled = false) :
    ∃ mo ud,
      ((uploadSourceToTargetURL env u).1 = [.retentionCall mo ud] ∨
       (uploadSourceToTargetURL env u).1 = [.statCall, .retentionCall mo ud]) ∧
      countCopy (uploadSourceToTargetURL env u).1 = 0 ∧
      countGet (uploadSourceToTargetURL env u).1 = 0 ∧
      countPut (uploadSourceToTargetURL env u).1 = 0 ∧
      (uploadSourceToTargetURL env u).2 = env.retnErr := by
  have hval : upValidate env u = .ok ("", "", "") := by
    simp [upValidate, hret, hlh]
  have hretn : ∀ md : Meta, putTargetRetentionM env md =
      ([.retentionCall (lookupMeta md lockModeKey) (lookupMeta md lockRetainKey)],
        env.retnErr) := by
    intro md
    unfold putTargetRetentionM
    rw [hck]
    rfl
  rcases upBaseMeta_ok env u ms hck hstat with hb | hb <;>
    by_cases halias : u.sourceAlias = u.targetAlias
  · have hrun : uploadSourceToTargetURL env u =
        ([.retentionCall (lookupMeta (upTgtMerged u (upSrcMeta0 u)) lockModeKey)
            (lookupMeta (upTgtMerged u (upSrcMeta0 u)) lockRetainKey)],
          env.retnErr) := by
      unfold uploadSourceToTargetURL
      simp only [hval]
      rw [if_pos halias]
      simp only [hb]
      rw [hsrc]
      simp [hretn]
    exact ⟨_, _, Or.inl (by rw [hrun]), by rw [hrun]; rfl, by rw [hrun]; rfl,
      by rw [hrun]; rfl, by rw [hrun]⟩
  · have hrun : uploadSourceToTargetURL env u =
        ([.retentionCall (lookupMeta (upTgtMerged u (upSrcMeta0 u)) lockModeKey)
            (lookupMeta (upTgtMerged u (upSrcMeta0 u)) lockRetainKey)],
          env.retnErr) := by
      unfold uploadSourceToTargetURL
      simp only [hval]
      rw [if_neg halias, hsrc]
      simp only [hb]
      simp [hretn]
    exact ⟨_, _, Or.inl (by rw [hrun]), by rw [hrun]; rfl, by rw [hrun]; rfl,
      by rw [hrun]; rfl, by rw [hrun]⟩
  · have hrun : uploadSourceToTargetURL env u =
        ([.statCall, .retentionCall
            (lookupMeta (upTgtMerged u (filterMetadata
              (mergeCanon (mergeCanon [] ms) u.tgtUserMeta))) lockModeKey)
            (lookupMeta (upTgtMerged u (filterMetadata
              (mergeCanon (mergeCanon [] ms) u.tgtUserMeta))) lockRetainKey)],
          env.retnErr) := by
      unfold uploadSourceToTargetURL
      simp only [hval]
      rw [if_pos halias]
      simp only [hb]
      rw [hsrc]
      simp [hretn]
    exact ⟨_, _, Or.inr (by rw [hrun]), by rw [hrun]; rfl, by rw [hrun]; rfl,
      by rw [hrun]; rfl, by rw [hrun]⟩
  · have hrun : uploadSourceToTargetURL env u =
        ([.statCall, .retentionCall
            (lookupMeta (upTgtMerged u (filterMetadata
              (mergeCanon (mergeCanon [] ms) u.tgtUserMeta))) lockModeKey)
            (lookupMeta (upTgtMerged u (filterMetadata
              (mergeCanon (mergeCanon [] ms) u.tgtUserMeta))) lockRetainKey)],
          env.retnErr) := by
      unfold uploadSourceToTargetURL
      simp only [hval]
      rw [if_neg halias, hsrc]
      simp only [hb]
      simp [hretn]
    exact ⟨_, _, Or.inr (by rw [hrun]), by rw [hrun]; rfl, by rw [hrun]; rfl,
      by rw [hrun]; rfl, by rw [hrun]⟩

/-- Claim C5, witness: a same-alias retention-only request results in a
single retention call and nothing else. -/
theorem upload_retention_only_witness :
    ∃ mo ud,
      ((uploadSourceToTargetURL
          ⟨true, .ok "", .ok [], none, false, .ok [], .ok "", true, none, none, none⟩
          ⟨"a1", "a1", 0, [("X-Amz-Meta-A", "v")], [], true, [], [], false, "",
            false, ""⟩).1 = [.retentionCall mo ud] ∨
       (uploadSourceToTargetURL
          ⟨true, .ok "", .ok [], none, false, .ok [], .ok "", true, none, none, none⟩
          ⟨"a1", "a1", 0, [("X-Amz-Meta-A", "v")], [], true, [], [], false, "",
            false, ""⟩).1 = [.statCall, .retentionCall mo ud]) ∧
      countCopy (uploadSourceToTargetURL
          ⟨true, .ok "", .ok [], none, false, .ok [], .ok "", true, none, none, none⟩
          ⟨"a1", "a1", 0, [("X-Amz-Meta-A", "v")], [], true, [], [], false, "",
            false, ""⟩).1 = 0 ∧
      countGet (uploadSourceToTargetURL
          ⟨true, .ok "", .ok [], none, false, .ok [], .ok "", true, none, none, none⟩
          ⟨"a1", "a1", 0, [("X-Amz-Meta-A", "v")], [], true, [], [], false, "",
            false, ""⟩).1 = 0 ∧
      countPut (uploadSourceToTargetURL
          ⟨true, .ok "", .ok [], none, false, .ok [], .ok "", true, none, none, none⟩
          ⟨"a1", "a1", 0, [("X-Amz-Meta-A", "v")], [], true, [], [], false, "",
            false, ""⟩).1 = 0 ∧
      (uploadSourceToTargetURL
          ⟨true, .ok "", .ok [], none, false, .ok [], .ok "", true, none, none, none⟩
          ⟨"a1", "a1", 0, [("X-Amz-Meta-A", "v")], [], true, [], [], false, "",
            false, ""⟩).2 =
        (⟨true, .ok "", .ok [], none, false, .ok [], .ok "", true, none, none,
          none⟩ : UpEnv).retnErr :=
  upload_retention_only
    ⟨true, .ok "", .ok [], none, false, .ok [], .ok "", true, none, none, none⟩
    ⟨"a1", "a1", 0, [("X-Amz-Meta-A", "v")], [], true, [], [], false, "",
      false, ""⟩ [] rfl rfl rfl rfl rfl

end OssCli
